import Mathlib

/-!
Shallow embedding of the CAMtest stereo headlight-detection firmware
(src/detector.cpp, src/main.cpp, src/triangulation.cpp, src/config.h)
and proofs about the blob detector, tracker, packet codec and
triangulator.

Machine integers are modelled as `Nat`/`Int` with explicit reduction
modulo `2^w` at the points where the C code stores into a fixed-width
field.  A frame buffer is a function from flat index to pixel value,
exactly as the C code indexes `pixels[frame_y * width + x]`.  `for`
loops over an index range are modelled as structural recursion over the
list of index values (`List.range` / `List.range'`).
-/

/-- Value stored into a `uint8_t`. -/
def u8 (x : ℕ) : ℕ := x % 256

/-- Value stored into a `uint16_t`. -/
def u16 (x : ℕ) : ℕ := x % 65536

/-- Value stored into a `uint32_t`. -/
def u32 (x : ℕ) : ℕ := x % 4294967296

/-- Value stored into a `uint64_t`. -/
def u64 (x : ℕ) : ℕ := x % 18446744073709551616

/-- Value stored into an `int16_t` (two's-complement wrap-around). -/
def i16 (z : ℤ) : ℤ := (z + 32768) % 65536 - 32768

-- ---------------------------------------------------------------------------
-- config.h constants
-- ---------------------------------------------------------------------------

def FRAME_WIDTH : ℕ := 800
def FRAME_HEIGHT : ℕ := 600
def BRIGHTNESS_THRESHOLD : ℕ := 200
def MIN_BLOB_PIXELS : ℕ := 16
def MAX_BLOB_PIXELS : ℕ := 70000
def MAX_BLOBS : ℕ := 16
def ROI_Y_START : ℕ := 0
def ROI_Y_END : ℕ := 0
def TRACKER_STATIC_THRESHOLD : ℕ := 4
def TRACKER_VEHICLE_THRESHOLD : ℕ := 12
def TRACKER_MAX_MATCH_DIST : ℕ := 25
def TRACKER_CONFIRM_FRAMES : ℕ := 3
def STEREO_MIN_DISPARITY : ℕ := 1

/-- detector.cpp: `#define MAX_LABELS 512`. -/
def MAX_LABELS : ℕ := 512

-- ---------------------------------------------------------------------------
-- Data model (detector.h)
-- ---------------------------------------------------------------------------

/-- `blob_class_t`: UNKNOWN = 0, STATIC_LIGHT = 1, VEHICLE = 2. -/
inductive blob_class_t where
  | UNKNOWN
  | STATIC_LIGHT
  | VEHICLE
deriving DecidableEq, Repr, Inhabited

/-- `blob_t`.  `cx`, `cy` are `uint16_t`, the counts `uint32_t`,
`dx`/`dy` are `int16_t`. -/
structure blob_t where
  cx : ℕ
  cy : ℕ
  pixel_count : ℕ
  brightness_sum : ℕ
  classification : blob_class_t
  dx : ℤ
  dy : ℤ
deriving DecidableEq, Repr, Inhabited

/-- A fully zeroed blob (the state a `memset` leaves behind). -/
def zeroBlob : blob_t :=
  { cx := 0, cy := 0, pixel_count := 0, brightness_sum := 0,
    classification := blob_class_t.UNKNOWN, dx := 0, dy := 0 }

/-- `detection_result_t`.  The C struct holds a fixed 16-slot array plus a
count; only the first `blob_count` slots are meaningful, so the blob array
is modelled as the list of those meaningful slots. -/
structure detection_result_t where
  blobs : List blob_t
  blob_count : ℕ
  scene_brightness : ℕ
deriving DecidableEq, Repr, Inhabited

/-- The result a `memset(result, 0, ...)` produces. -/
def emptyResult : detection_result_t :=
  { blobs := [], blob_count := 0, scene_brightness := 0 }

/-- `label_acc_t` (per-label accumulator, all fields `uint32_t`). -/
structure label_acc_t where
  sum_x : ℕ
  sum_y : ℕ
  pixel_count : ℕ
  brightness_sum : ℕ
deriving DecidableEq, Repr, Inhabited

/-- A zeroed accumulator (`heap_caps_calloc` zero-fills). -/
def zeroAcc : label_acc_t := ⟨0, 0, 0, 0⟩

-- ---------------------------------------------------------------------------
-- Union-find (detector.cpp lines 12-32).  The C code keeps `parent` in a
-- process-global array of MAX_LABELS entries; here that global is threaded
-- explicitly as a `List ℕ`.
-- ---------------------------------------------------------------------------

/-- Step bound for the `uf_find` while loop; the loop strictly descends
through the label space, so `MAX_LABELS` iterations always suffice. -/
def uf_findAux : ℕ → List ℕ → ℕ → ℕ × List ℕ
  | 0, p, x => (x, p)
  | fuel + 1, p, x =>
    let px := p.getD x 0
    if px = x then (x, p)
    else
      -- parent[x] = parent[parent[x]]  (path compression)
      let p1 := p.set x (p.getD px 0)
      -- x = parent[x]
      uf_findAux fuel p1 (p1.getD x 0)

/-- `uf_find`: root lookup with path compression, returning the root and
the updated parent array. -/
def uf_find (p : List ℕ) (x : ℕ) : ℕ × List ℕ := uf_findAux MAX_LABELS p x

/-- `uf_union`: merge the higher root into the lower. -/
def uf_union (p : List ℕ) (a b : ℕ) : List ℕ :=
  let ra := uf_find p a
  let rb := uf_find ra.2 b
  if ra.1 ≠ rb.1 then
    if ra.1 < rb.1 then rb.2.set rb.1 ra.1 else rb.2.set ra.1 rb.1
  else rb.2

/-- The init loop `for (i = 0; i < MAX_LABELS; i++) parent[i] = i;`
applied to the previous global contents. -/
def parentInit (p : List ℕ) : List ℕ :=
  (List.range MAX_LABELS).foldl (fun q i => q.set i i) p

-- ---------------------------------------------------------------------------
-- detect_blobs pass 1 (lines 78-127): threshold, label, union neighbors.
-- The label map is stored row-major as a list of rows.
-- ---------------------------------------------------------------------------

/-- The `min_lbl` scan over the four neighbor labels. -/
def minNeighborLabel (neighbors : List ℕ) : ℕ :=
  neighbors.foldl (fun m n => if n ≠ 0 ∧ (m = 0 ∨ n < m) then n else m) 0

/-- The union loop: `uf_union(min_lbl, neighbors[k])` for every non-zero
neighbor label different from `min_lbl`. -/
def unionNeighbors (min_lbl : ℕ) (neighbors : List ℕ) (parent : List ℕ) : List ℕ :=
  neighbors.foldl (fun p n => if n ≠ 0 ∧ n ≠ min_lbl then uf_union p min_lbl n else p) parent

/-- The body of one pass-1 pixel iteration: threshold the pixel,
accumulate the scene sum, and either mark background, take a fresh label
(dropped once the label space is exhausted), or adopt the smallest
neighbor label and union the distinct neighbor labels.  `prevRow` is row
`ry - 1` of the label map (empty for `ry = 0`, so the `ry > 0` guards
read label 0 there, exactly like the C boundary guards); `cur` is the
current row built so far.  Returns (label, parent, next_label,
scene_sum). -/
def pass1Pixel (pixels : ℕ → ℕ) (width y_start ry x : ℕ)
    (prevRow cur parent : List ℕ) (next_label scene_sum : ℕ) : ℕ × List ℕ × ℕ × ℕ :=
  let frame_y := ry + y_start
  let pix := pixels (frame_y * width + x)
  let ss := u64 (scene_sum + pix)
  if pix < BRIGHTNESS_THRESHOLD then (0, parent, next_label, ss)
  else
    let left := if 0 < x then cur.getD (x - 1) 0 else 0
    let above := if 0 < ry then prevRow.getD x 0 else 0
    let a_l := if 0 < ry ∧ 0 < x then prevRow.getD (x - 1) 0 else 0
    let a_r := if 0 < ry ∧ x < width - 1 then prevRow.getD (x + 1) 0 else 0
    let neighbors := [left, above, a_l, a_r]
    let min_lbl := minNeighborLabel neighbors
    if min_lbl = 0 then
      if next_label < MAX_LABELS then (next_label, parent, next_label + 1, ss)
      else (0, parent, next_label, ss)
    else (min_lbl, unionNeighbors min_lbl neighbors parent, next_label, ss)

/-- The inner `for (x = 0; x < width; x++)` loop of pass 1 over the list
of x positions, building the current label row left to right.
Returns (current row, parent, next_label, scene_sum). -/
def pass1Row (pixels : ℕ → ℕ) (width y_start ry : ℕ) :
    List ℕ → List ℕ → List ℕ → List ℕ → ℕ → ℕ →
    List ℕ × List ℕ × ℕ × ℕ
  | [], _prevRow, cur, parent, next_label, scene_sum =>
    (cur, parent, next_label, scene_sum)
  | x :: xs, prevRow, cur, parent, next_label, scene_sum =>
    let r := pass1Pixel pixels width y_start ry x prevRow cur parent next_label scene_sum
    pass1Row pixels width y_start ry xs prevRow (cur ++ [r.1]) r.2.1 r.2.2.1 r.2.2.2

/-- State carried by pass 1 across rows.  `rowsRev` collects the label
rows most recent first. -/
structure pass1_go_state where
  prevRow : List ℕ
  rowsRev : List (List ℕ)
  parent : List ℕ
  next_label : ℕ
  scene_sum : ℕ
deriving Repr

/-- One iteration of the outer `for (ry ...)` loop of pass 1. -/
def pass1Step (pixels : ℕ → ℕ) (width y_start ry : ℕ) (st : pass1_go_state) :
    pass1_go_state :=
  let r := pass1Row pixels width y_start ry (List.range width) st.prevRow [] st.parent
    st.next_label st.scene_sum
  { prevRow := r.1, rowsRev := r.1 :: st.rowsRev, parent := r.2.1,
    next_label := r.2.2.1, scene_sum := r.2.2.2 }

/-- The outer `for (ry = 0; ry < roi_height; ry++)` loop of pass 1 over
the list of ry values. -/
def pass1Go (pixels : ℕ → ℕ) (width y_start : ℕ) :
    List ℕ → pass1_go_state → pass1_go_state
  | [], st => st
  | ry :: rys, st => pass1Go pixels width y_start rys (pass1Step pixels width y_start ry st)

/-- The pass-1 state at entry: no previous row, no stored rows, freshly
initialised parent array, `next_label = 1` (label 0 = background),
scene sum 0. -/
def pass1Start (parent : List ℕ) : pass1_go_state :=
  { prevRow := [], rowsRev := [], parent := parent, next_label := 1, scene_sum := 0 }

-- ---------------------------------------------------------------------------
-- detect_blobs pass 2 (lines 147-162): resolve roots, accumulate stats.
-- ---------------------------------------------------------------------------

/-- The body of one pass-2 pixel iteration: background labels are
skipped, otherwise the label is resolved to its root (with path
compression updating the parent array) and the root's accumulator gains
this pixel's coordinates and brightness in `uint32_t` arithmetic. -/
def pass2Pixel (pixels : ℕ → ℕ) (width frame_y x lbl : ℕ)
    (accs : List label_acc_t) (parent : List ℕ) : List label_acc_t × List ℕ :=
  if lbl = 0 then (accs, parent)
  else
    let fr := uf_find parent lbl
    let root := fr.1
    let pix := pixels (frame_y * width + x)
    let a := accs.getD root zeroAcc
    let a1 : label_acc_t :=
      { sum_x := u32 (a.sum_x + x), sum_y := u32 (a.sum_y + frame_y),
        pixel_count := u32 (a.pixel_count + 1),
        brightness_sum := u32 (a.brightness_sum + pix) }
    (accs.set root a1, fr.2)

/-- Inner loop of pass 2 over one label row. -/
def pass2Row (pixels : ℕ → ℕ) (width frame_y : ℕ) :
    List ℕ → ℕ → List label_acc_t → List ℕ → List label_acc_t × List ℕ
  | [], _x, accs, parent => (accs, parent)
  | lbl :: restRow, x, accs, parent =>
    let r := pass2Pixel pixels width frame_y x lbl accs parent
    pass2Row pixels width frame_y restRow (x + 1) r.1 r.2

/-- Outer loop of pass 2 over the stored label rows; `ry` counts rows. -/
def pass2Go (pixels : ℕ → ℕ) (width y_start : ℕ) :
    List (List ℕ) → ℕ → List label_acc_t × List ℕ → List label_acc_t × List ℕ
  | [], _ry, st => st
  | row :: restRows, ry, st =>
    pass2Go pixels width y_start restRows (ry + 1) (pass2Row pixels width (ry + y_start) row 0 st.1 st.2)

-- ---------------------------------------------------------------------------
-- Collect qualifying blobs (lines 168-191), insertion sort (193-202),
-- merge pass (204-238).
-- ---------------------------------------------------------------------------

/-- The `for (i = 1; i < num_labels; i++)` collection loop over the list
of label indices: keep root labels whose pixel count lies inside the
configured bounds, reject centroids in the first/last few rows, stop
appending at MAX_BLOBS. -/
def collectLoop (height : ℕ) (parent : List ℕ) (accs : List label_acc_t) :
    List ℕ → List blob_t → List blob_t
  | [], blobs => blobs
  | i :: is, blobs =>
    if parent.getD i 0 ≠ i then collectLoop height parent accs is blobs
    else
      let a := accs.getD i zeroAcc
      if a.pixel_count < MIN_BLOB_PIXELS then collectLoop height parent accs is blobs
      else if MAX_BLOB_PIXELS < a.pixel_count then collectLoop height parent accs is blobs
      else if blobs.length < MAX_BLOBS then
        let cx := u16 (a.sum_x / a.pixel_count)
        let cy := u16 (a.sum_y / a.pixel_count)
        -- cy > (uint16_t)(height - 4), with the int subtraction wrapped to uint16
        if cy < 3 ∨ Int.toNat (((height : ℤ) - 4) % 65536) < cy then
          collectLoop height parent accs is blobs
        else
          collectLoop height parent accs is
            (blobs ++ [{ cx := cx, cy := cy, pixel_count := a.pixel_count,
                         brightness_sum := a.brightness_sum,
                         classification := blob_class_t.UNKNOWN, dx := 0, dy := 0 }])
      else collectLoop height parent accs is blobs

/-- One insertion step of the insertion sort: place `b` after every blob
with a pixel count ≥ its own (stable, descending). -/
def insertDescending (b : blob_t) : List blob_t → List blob_t
  | [] => [b]
  | c :: rest =>
    if c.pixel_count < b.pixel_count then b :: c :: rest
    else c :: insertDescending b rest

/-- The insertion sort by pixel count descending (lines 193-202). -/
def sortBlobsDescending (l : List blob_t) : List blob_t :=
  l.foldl (fun acc b => insertDescending b acc) []

/-- Manhattan distance between two blob centroids, computed like the C
code through `int` differences. -/
def blobManhattan (a c : blob_t) : ℕ :=
  ((a.cx : ℤ) - (c.cx : ℤ)).natAbs + ((a.cy : ℤ) - (c.cy : ℤ)).natAbs

/-- Merge blob `c` into blob `a` (lines 214-226): pixel-count-weighted
centroid average in `uint32_t` arithmetic, summed brightness and count. -/
def mergeBlobs (a c : blob_t) : blob_t :=
  let total_pc := u32 (a.pixel_count + c.pixel_count)
  { cx := u16 (u32 (u32 (a.cx * a.pixel_count) + u32 (c.cx * c.pixel_count)) / total_pc),
    cy := u16 (u32 (u32 (a.cy * a.pixel_count) + u32 (c.cy * c.pixel_count)) / total_pc),
    pixel_count := total_pc,
    brightness_sum := u32 (a.brightness_sum + c.brightness_sum),
    classification := a.classification, dx := a.dx, dy := a.dy }

/-- The inner `j` loop of the merge pass for a fixed outer blob: each
later blob within `mergeDist` is absorbed into the (updated) outer blob
and removed; others stay, and `j` only moves forward. -/
def mergeScan (mergeDist : ℕ) : blob_t → List blob_t → blob_t × List blob_t
  | b, [] => (b, [])
  | b, c :: rest =>
    if blobManhattan b c ≤ mergeDist then mergeScan mergeDist (mergeBlobs b c) rest
    else
      let r := mergeScan mergeDist b rest
      (r.1, c :: r.2)

/-- The outer `i` loop of the merge pass.  Each outer iteration consumes
at least one blob, so fuel = list length always suffices. -/
def mergeLoop (mergeDist : ℕ) : ℕ → List blob_t → List blob_t
  | 0, l => l
  | _fuel + 1, [] => []
  | fuel + 1, b :: rest =>
    let r := mergeScan mergeDist b rest
    r.1 :: mergeLoop mergeDist fuel r.2

/-- Total pixel count of a blob list (used to reason about `uint32_t`
overflow in the merge pass). -/
def sumPc (l : List blob_t) : ℕ := (l.map (fun b => b.pixel_count)).sum

-- ---------------------------------------------------------------------------
-- detect_blobs (lines 47-241)
-- ---------------------------------------------------------------------------

/-- ROI upper bound: `if (y_end == 0 || y_end > height) y_end = height;`. -/
def roiYEnd (height : ℕ) : ℕ :=
  if ROI_Y_END = 0 ∨ height < ROI_Y_END then height else ROI_Y_END

/-- ROI lower bound: `if (y_start >= y_end) y_start = 0;`. -/
def roiYStart (height : ℕ) : ℕ :=
  if roiYEnd height ≤ ROI_Y_START then 0 else ROI_Y_START

/-- The scene-brightness average written at line 131: 64-bit scene sum
divided by the ROI pixel count, stored into a `uint32_t`. -/
def sceneBrightnessOf (parent0 : List ℕ) (pixels : ℕ → ℕ) (width height : ℕ) : ℕ :=
  let y_start := roiYStart height
  let roi_height := roiYEnd height - y_start
  let s1 := pass1Go pixels width y_start (List.range roi_height) (pass1Start (parentInit parent0))
  u32 (s1.scene_sum / (width * roi_height))

/-- Modelled from the spec: `BLOB_MERGE_DIST` is referenced by
detector.cpp line 213 but defined nowhere in the repository; the spec
only says blobs "within a fixed Manhattan distance" are merged, so the
threshold is taken as the explicit parameter `mergeDist` below.

`detect_blobs`.  `parent0` is the content of the process-global
union-find array before the call; `labelsOk` / `accsOk` say whether the
label-map and accumulator scratch allocations succeed (the PSRAM/heap
fallback pair is a single flag since both produce zeroed memory).
Returns the result struct and the global parent array after the call. -/
def detect_blobs (parent0 : List ℕ) (labelsOk accsOk : Bool) (mergeDist : ℕ)
    (pixels : ℕ → ℕ) (width height : ℕ) : detection_result_t × List ℕ :=
  let y_start := roiYStart height
  let y_end := roiYEnd height
  let roi_height := y_end - y_start
  if labelsOk = false then (emptyResult, parent0)
  else
    let s1 := pass1Go pixels width y_start (List.range roi_height) (pass1Start (parentInit parent0))
    let scene_brightness := sceneBrightnessOf parent0 pixels width height
    let num_labels := if s1.next_label < MAX_LABELS then s1.next_label else MAX_LABELS
    if accsOk = false then
      ({ blobs := [], blob_count := 0, scene_brightness := scene_brightness }, s1.parent)
    else
      let accs0 := List.replicate num_labels zeroAcc
      let s2 := pass2Go pixels width y_start s1.rowsRev.reverse 0 (accs0, s1.parent)
      let collected := collectLoop height s2.2 s2.1 (List.range' 1 (num_labels - 1)) []
      let sorted := sortBlobsDescending collected
      let merged := mergeLoop mergeDist sorted.length sorted
      ({ blobs := merged, blob_count := merged.length, scene_brightness := scene_brightness },
       s2.2)

-- ---------------------------------------------------------------------------
-- Blob tracker (detector.cpp lines 247-389)
-- ---------------------------------------------------------------------------

/-- `tracker_state_t`: previous-frame centroids plus per-slot hysteresis
state.  The C arrays have MAX_BLOBS entries; `count` says how many are
valid. -/
structure tracker_state_t where
  cx : List ℕ
  cy : List ℕ
  confirmed_class : List blob_class_t
  pending_class : List blob_class_t
  vote_count : List ℕ
  count : ℕ
deriving DecidableEq, Repr, Inhabited

/-- `tracker_reset`: `memset(state, 0, sizeof(*state))`. -/
def tracker_reset : tracker_state_t :=
  { cx := List.replicate MAX_BLOBS 0, cy := List.replicate MAX_BLOBS 0,
    confirmed_class := List.replicate MAX_BLOBS blob_class_t.UNKNOWN,
    pending_class := List.replicate MAX_BLOBS blob_class_t.UNKNOWN,
    vote_count := List.replicate MAX_BLOBS 0, count := 0 }

/-- Manhattan distance from a blob position to a previous-frame slot. -/
def slotManhattan (bcx bcy scx scy : ℕ) : ℕ :=
  ((bcx : ℤ) - (scx : ℤ)).natAbs + ((bcy : ℤ) - (scy : ℤ)).natAbs

/-- The greedy nearest-neighbour scan (lines 290-302): over slots
`j = 0 .. count-1`, skipping already matched slots, keep the first slot
attaining the strictly smallest distance.  `best_j = -1` means no
candidate; `best_dist` starts at `0x7FFFFFFF`. -/
def findBestMatch (bcx bcy : ℕ) (scx scy : List ℕ) (matched : List Bool) :
    List ℕ → ℤ × ℕ → ℤ × ℕ
  | [], best => best
  | j :: js, best =>
    if matched.getD j false then findBestMatch bcx bcy scx scy matched js best
    else
      let dist := slotManhattan bcx bcy (scx.getD j 0) (scy.getD j 0)
      if dist < best.2 then findBestMatch bcx bcy scx scy matched js ((j : ℤ), dist)
      else findBestMatch bcx bcy scx scy matched js best

/-- Raw classification from matched motion magnitude (lines 323-330). -/
def classify_from_motion (motion : ℕ) : blob_class_t :=
  if motion ≤ TRACKER_STATIC_THRESHOLD then blob_class_t.STATIC_LIGHT
  else if TRACKER_VEHICLE_THRESHOLD ≤ motion then blob_class_t.VEHICLE
  else blob_class_t.UNKNOWN

/-- Result of the per-blob loop of `tracker_classify` (lines 265-350):
the classified blobs in order, the match map (`-1` = unmatched), and the
vote-state arrays after this call's voting, still indexed by
previous-frame slots. -/
structure track_pass_t where
  blobs : List blob_t
  match_map : List ℤ
  confirmed_class : List blob_class_t
  pending_class : List blob_class_t
  vote_count : List ℕ
deriving DecidableEq, Repr, Inhabited

/-- The per-blob loop of `tracker_classify`.  `state` provides the
previous-frame centroids (never mutated inside the loop); the vote
arrays are threaded because the loop mutates them in place. -/
def trackLoop (state : tracker_state_t) :
    List blob_t → List Bool → List ℤ → List blob_t →
    List blob_class_t → List blob_class_t → List ℕ → track_pass_t
  | [], _matched, mm, done, conf, pend, votes =>
    { blobs := done, match_map := mm, confirmed_class := conf,
      pending_class := pend, vote_count := votes }
  | b :: rest, matched, mm, done, conf, pend, votes =>
    -- own-headlight road-reflection filter (lines 272-278)
    if FRAME_HEIGHT * 3 / 4 < b.cy ∧ MAX_BLOB_PIXELS / 2 < b.pixel_count then
      trackLoop state rest matched (mm ++ [-1])
        (done ++ [{ b with classification := blob_class_t.STATIC_LIGHT, dx := 0, dy := 0 }])
        conf pend votes
    -- no previous frame (lines 281-287)
    else if state.count = 0 then
      trackLoop state rest matched (mm ++ [-1])
        (done ++ [{ b with classification := blob_class_t.UNKNOWN, dx := 0, dy := 0 }])
        conf pend votes
    else
      let best := findBestMatch b.cx b.cy state.cx state.cy matched
        (List.range state.count) (-1, 2147483647)
      if best.1 < 0 ∨ TRACKER_MAX_MATCH_DIST < best.2 then
        -- new blob, no history (lines 304-310)
        trackLoop state rest matched (mm ++ [-1])
          (done ++ [{ b with classification := blob_class_t.UNKNOWN, dx := 0, dy := 0 }])
          conf pend votes
      else
        let j := best.1.toNat
        let dxv := i16 ((b.cx : ℤ) - (state.cx.getD j 0 : ℤ))
        let dyv := i16 ((b.cy : ℤ) - (state.cy.getD j 0 : ℤ))
        let motion := dxv.natAbs + dyv.natAbs
        let raw := classify_from_motion motion
        -- N-frame hysteresis (lines 335-347)
        let agree := raw = pend.getD j blob_class_t.UNKNOWN
        let pend1 := if agree then pend else pend.set j raw
        let votes1 :=
          if agree then
            if votes.getD j 0 < 255 then votes.set j (votes.getD j 0 + 1) else votes
          else votes.set j 1
        let conf1 :=
          if TRACKER_CONFIRM_FRAMES ≤ votes1.getD j 0 then
            conf.set j (pend1.getD j blob_class_t.UNKNOWN)
          else conf
        let b1 : blob_t :=
          { b with classification := conf1.getD j blob_class_t.UNKNOWN, dx := dxv, dy := dyv }
        trackLoop state rest (matched.set j true) (mm ++ [(j : ℤ)]) (done ++ [b1])
          conf1 pend1 votes1

/-- The per-blob loop applied to a detection result. -/
def trackPass (state : tracker_state_t) (blobs : List blob_t) : track_pass_t :=
  trackLoop state blobs (List.replicate MAX_BLOBS false) [] []
    state.confirmed_class state.pending_class state.vote_count

/-- The raw classification the loop derives for blob `b` matched to
previous-frame slot `j`: the `int16_t` deltas against the stored
centroid, classified by Manhattan motion magnitude. -/
def rawClassAt (state : tracker_state_t) (b : blob_t) (j : ℕ) : blob_class_t :=
  classify_from_motion
    ((i16 ((b.cx : ℤ) - (state.cx.getD j 0 : ℤ))).natAbs +
     (i16 ((b.cy : ℤ) - (state.cy.getD j 0 : ℤ))).natAbs)

/-- The vote-counter update of the hysteresis step for previous-frame
slot `j` when the raw classification is `raw`: increment (capped at 255)
on agreement with the pending candidate, restart at 1 otherwise. -/
def voteUpdate (state : tracker_state_t) (j : ℕ) (raw : blob_class_t) : ℕ :=
  if raw = state.pending_class.getD j blob_class_t.UNKNOWN then
    if state.vote_count.getD j 0 < 255 then state.vote_count.getD j 0 + 1
    else state.vote_count.getD j 0
  else 1

/-- The remap loop (lines 364-372): re-index the vote state from
previous-frame slots to current-frame slots through the match map;
unmatched current blobs keep the zeroed state. -/
def remapLoop (mm : List ℤ) (conf pend : List blob_class_t) (votes : List ℕ) :
    List ℕ → List blob_class_t → List blob_class_t → List ℕ →
    List blob_class_t × List blob_class_t × List ℕ
  | [], nc, np, nv => (nc, np, nv)
  | i :: is, nc, np, nv =>
    let j := mm.getD i (-1)
    if 0 ≤ j then
      remapLoop mm conf pend votes is
        (nc.set i (conf.getD j.toNat blob_class_t.UNKNOWN))
        (np.set i (pend.getD j.toNat blob_class_t.UNKNOWN))
        (nv.set i (votes.getD j.toNat 0))
    else remapLoop mm conf pend votes is nc np nv

/-- The centroid store loop (lines 379-382). -/
def storeLoop (blobs : List blob_t) : List ℕ → List ℕ → List ℕ → List ℕ × List ℕ
  | [], cxs, cys => (cxs, cys)
  | i :: is, cxs, cys =>
    let b := blobs.getD i zeroBlob
    storeLoop blobs is (cxs.set i b.cx) (cys.set i b.cy)

/-- `tracker_classify`: classify the blobs in place and advance the
persistent state.  Returns the classified blobs and the new state. -/
def tracker_classify (state : tracker_state_t) (blobs : List blob_t) :
    List blob_t × tracker_state_t :=
  let A := trackPass state blobs
  let rm := remapLoop A.match_map A.confirmed_class A.pending_class A.vote_count
    (List.range A.blobs.length)
    (List.replicate MAX_BLOBS blob_class_t.UNKNOWN)
    (List.replicate MAX_BLOBS blob_class_t.UNKNOWN)
    (List.replicate MAX_BLOBS 0)
  let st := storeLoop A.blobs (List.range A.blobs.length) state.cx state.cy
  if A.blobs.length = 0 then (A.blobs, tracker_reset)
  else
    (A.blobs,
     { cx := st.1, cy := st.2, confirmed_class := rm.1, pending_class := rm.2.1,
       vote_count := rm.2.2, count := A.blobs.length })

-- ---------------------------------------------------------------------------
-- UART packet codec (main.cpp lines 37-121)
-- ---------------------------------------------------------------------------

def UART_PACKET_HEADER : ℕ := 170
def MAX_BLOBS_TX : ℕ := 3
def UART_PACKET_SIZE : ℕ := 2 + MAX_BLOBS_TX * 6

/-- One 6-byte slot of `send_blobs_uart` (lines 66-79): big-endian cx,
cy, and pixel count saturated to 65535; slots at or beyond the blob
count are zero-filled.  The byte splits are the `uint8_t` casts of
`v >> 8` and `v & 0xFF`. -/
def encodeSlot (blobs : List blob_t) (n i : ℕ) : List ℕ :=
  if i < n then
    let b := blobs.getD i zeroBlob
    let pc := if 65535 < b.pixel_count then 65535 else b.pixel_count
    [u8 (b.cx / 256), u8 b.cx, u8 (b.cy / 256), u8 b.cy, u8 (pc / 256), u8 pc]
  else [0, 0, 0, 0, 0, 0]

/-- `send_blobs_uart` (lines 58-81): header byte, clamped count byte,
then the `i = 0, 1, 2` iterations of the fixed slot loop. -/
def send_blobs_uart (result : detection_result_t) : List ℕ :=
  let n := if MAX_BLOBS_TX < result.blob_count then MAX_BLOBS_TX else result.blob_count
  [UART_PACKET_HEADER, n] ++ encodeSlot result.blobs n 0 ++ encodeSlot result.blobs n 1 ++
    encodeSlot result.blobs n 2

/-- Result of one `recv_blobs_uart` poll: the return value, the value of
`*out_count` after the call, the blob slots actually written, and the
bytes left in the UART buffer. -/
structure recv_out_t where
  ok : Bool
  count : ℕ
  blobs : List (ℕ × ℕ × ℕ)
  rest : List ℕ
deriving DecidableEq, Repr, Inhabited

/-- One decoded 6-byte slot.  The byte pairs are recombined with
`(hi << 8) | lo`; the buffered values are bytes (< 256), for which this
equals `hi * 256 + lo`. -/
def decodeSlot (payload : List ℕ) (i : ℕ) : ℕ × ℕ × ℕ :=
  let buf := (payload.drop (6 * i)).take 6
  (buf.getD 0 0 * 256 + buf.getD 1 0,
   buf.getD 2 0 * 256 + buf.getD 3 0,
   buf.getD 4 0 * 256 + buf.getD 5 0)

/-- `recv_blobs_uart` (lines 89-121) on a modelled UART buffer.
`out_count0` is the value `*out_count` held before the call (the
incomplete-packet path returns without writing it). -/
def recv_blobs_uart (stream : List ℕ) (out_count0 : ℕ) : recv_out_t :=
  -- drain until the header byte is at the front (lines 92-94)
  let s1 := stream.dropWhile (fun b => b ≠ UART_PACKET_HEADER)
  if s1.length < UART_PACKET_SIZE then
    { ok := false, count := out_count0, blobs := [], rest := s1 }     -- incomplete
  else
    -- consume the header, read the count byte
    let n := s1.getD 1 0
    if MAX_BLOBS_TX < n then
      -- corrupt count byte: flush the whole buffer (lines 103-108)
      { ok := false, count := 0, blobs := [], rest := [] }
    else
      -- read all MAX_BLOBS_TX slots, keeping the first n (lines 111-119)
      let payload := (s1.drop 2).take (MAX_BLOBS_TX * 6)
      { ok := true, count := n,
        blobs := (List.range n).map (decodeSlot payload),
        rest := s1.drop UART_PACKET_SIZE }

-- ---------------------------------------------------------------------------
-- Triangulation (triangulation.cpp lines 8-43).  The float arithmetic is
-- modelled over the reals.
-- ---------------------------------------------------------------------------

noncomputable def STEREO_BASELINE_M : ℝ := 0.15

noncomputable def STEREO_HFOV_DEG : ℝ := 62

/-- `get_focal_px`: `(FRAME_WIDTH * 0.5) / tanf(hfov_rad * 0.5)` with
`hfov_rad = STEREO_HFOV_DEG * pi / 180`. -/
noncomputable def get_focal_px : ℝ :=
  (FRAME_WIDTH : ℝ) * 0.5 / Real.tan (STEREO_HFOV_DEG * Real.pi / 180 * 0.5)

open Classical in
/-- `triangulate_distance(px, py, sx, sy)` (the four-argument 2D-disparity
definition in triangulation.cpp, which the spec designates canonical). -/
noncomputable def triangulate_distance (px py sx sy : ℕ) : ℝ :=
  let dx : ℤ := (sx : ℤ) - (px : ℤ)
  if dx < (STEREO_MIN_DISPARITY : ℤ) then -1
  else
    let dy : ℤ := (sy : ℤ) - (py : ℤ)
    let disparity : ℝ := Real.sqrt ((dx * dx + dy * dy : ℤ) : ℝ)
    if disparity < (STEREO_MIN_DISPARITY : ℕ) then -1
    else
      let distance := STEREO_BASELINE_M * get_focal_px / disparity
      if distance < 0.5 ∨ 80 < distance then -1 else distance

open Classical in
/-- The distance value named by the spec: `baseline_m * focal_px /
disparity` with the 2D Euclidean disparity of the two centroids. -/
noncomputable def specStereoDistance (px py sx sy : ℕ) : ℝ :=
  STEREO_BASELINE_M * get_focal_px /
    Real.sqrt ((((sx : ℤ) - px) * ((sx : ℤ) - px) + (((sy : ℤ) - py)) * (((sy : ℤ) - py)) : ℤ) : ℝ)

-- ---------------------------------------------------------------------------
-- Concrete frames used as inputs in the proofs below
-- ---------------------------------------------------------------------------

/-- A 20 x 20 frame with a 10 x 10 maximum-brightness block at
x, y in [5, 14] on a zero background. -/
def pixBlock : ℕ → ℕ := fun i =>
  let x := i % 20
  let y := i / 20
  if 5 ≤ x ∧ x ≤ 14 ∧ 5 ≤ y ∧ y ≤ 14 then 255 else 0

/-- A 7 x 11674 frame holding two 3-wide bright vertical strips over rows
3..11669 (columns 0-2 and 4-6, column 3 dark): two 35001-pixel blobs with
centroids (1, 5836) and (5, 5836), Manhattan distance 4 apart. -/
def pixTallStrips : ℕ → ℕ := fun i =>
  let x := i % 7
  let y := i / 7
  if 3 ≤ y ∧ y ≤ 11669 ∧ x ≠ 3 then 255 else 0

/-- A 22 x 26 frame with three bright rectangles:
A = x in [8,12] x y in [9,12] (20 px, centroid (10, 10)),
B = x in [18,20] x y in [4,9] (18 px, centroid (19, 6)),
C = x in [18,20] x y in [16,21] (18 px, centroid (19, 18)). -/
def pixThreeBlobs : ℕ → ℕ := fun i =>
  let x := i % 22
  let y := i / 22
  if (8 ≤ x ∧ x ≤ 12 ∧ 9 ≤ y ∧ y ≤ 12) ∨
     (18 ≤ x ∧ x ≤ 20 ∧ 4 ≤ y ∧ y ≤ 9) ∨
     (18 ≤ x ∧ x ≤ 20 ∧ 16 ≤ y ∧ y ≤ 21) then 255 else 0

/-- An all-bright frame (every sample 255). -/
def pixAllBright : ℕ → ℕ := fun _ => 255

/-- An all-background label row of the 7-wide strip frame. -/
def z7 : List ℕ := [0, 0, 0, 0, 0, 0, 0]

/-- The steady label row of the 7-wide strip frame: labels 1 and 2 for
the two strips, background in column 3. -/
def sRow7 : List ℕ := [1, 1, 1, 0, 2, 2, 2]

/-- A one-slot tracker state remembering a blob at (100, 100). -/
def witnessTrackState : tracker_state_t :=
  { cx := 100 :: List.replicate 15 0, cy := 100 :: List.replicate 15 0,
    confirmed_class := List.replicate 16 blob_class_t.UNKNOWN,
    pending_class := List.replicate 16 blob_class_t.UNKNOWN,
    vote_count := List.replicate 16 0, count := 1 }

/-- One current-frame blob 3 pixels right of the remembered centroid. -/
def witnessTrackBlobs : List blob_t :=
  [{ zeroBlob with cx := 103, cy := 100, pixel_count := 100 }]

-- ---------------------------------------------------------------------------
-- Theorems.  Shared helper lemmas come first, then one theorem (plus
-- witness / counterexample where required) per specification claim.
-- ---------------------------------------------------------------------------

/-- Dropping-while over a prefix that satisfies the predicate skips the
whole prefix. -/
theorem dropWhile_append_of_pos (p : ℕ → Bool) (l1 l2 : List ℕ) (h : ∀ x ∈ l1, p x = true) :
    (l1 ++ l2).dropWhile p = l2.dropWhile p := by
  induction l1 with
  | nil => simp
  | cons a l ih =>
    have ha : p a = true := h a (by simp)
    simp [List.dropWhile_cons, ha]
    exact ih (fun x hx => h x (by simp [hx]))

/-- C10: whenever `recv_blobs_uart` returns true it has consumed exactly
`2 + 6 * MAX_BLOBS_TX` bytes starting at the sync byte: the bytes left in
the buffer are the scanned-to stream minus one full fixed-size packet, so
the decoder sits at the boundary of the next packet. -/
theorem recv_consumes_full_packet (stream : List ℕ) (out_count0 : ℕ)
    (h : (recv_blobs_uart stream out_count0).ok = true) :
    (recv_blobs_uart stream out_count0).rest =
      (stream.dropWhile (fun b => b ≠ UART_PACKET_HEADER)).drop (2 + 6 * MAX_BLOBS_TX) := by
  unfold recv_blobs_uart at h ⊢
  by_cases h1 : (stream.dropWhile (fun b => b ≠ UART_PACKET_HEADER)).length < UART_PACKET_SIZE
  · simp only [h1, if_true] at h
    exact absurd h (by simp)
  · by_cases h2 : MAX_BLOBS_TX < (stream.dropWhile (fun b => b ≠ UART_PACKET_HEADER)).getD 1 0
    · simp only [h1, if_false, h2, if_true] at h
      exact absurd h (by simp)
    · simp only [h1, h2, if_false]
      norm_num [UART_PACKET_SIZE, MAX_BLOBS_TX]

/-- Witness for C10 at a concrete buffered stream (one garbage byte, a
full zero-count packet, two trailing bytes). -/
theorem recv_consumes_full_packet_witness :
    (recv_blobs_uart ([9, 170, 0, 0, 0, 0, 0, 0, 0, 0, 0, 0, 0, 0, 0, 0, 0, 0, 0, 0, 0, 7, 8] : List ℕ) 5).rest =
      ((([9, 170, 0, 0, 0, 0, 0, 0, 0, 0, 0, 0, 0, 0, 0, 0, 0, 0, 0, 0, 0, 7, 8] : List ℕ).dropWhile
        (fun b => b ≠ UART_PACKET_HEADER)).drop (2 + 6 * MAX_BLOBS_TX)) :=
  recv_consumes_full_packet _ 5 (by decide)

/-- C6 counterexample: on a full-length buffered packet with count byte 9
followed by a further sync byte, `recv_blobs_uart` flushes the entire
buffer: the remaining stream is `[]`, not the preserved `[170]` the claim
requires for resuming at the next sync byte. -/
theorem recv_bad_count_drops_buffer_counterexample :
    recv_blobs_uart ([170, 9] ++ List.replicate 18 0 ++ [170]) 7 =
      { ok := false, count := 0, blobs := [], rest := [] } ∧
    ([] : List ℕ) ≠ [170] := by
  constructor
  · rfl
  · decide

/-- C6 amended: when a full-length packet is buffered and its count byte
exceeds MAX_BLOBS_TX, `recv_blobs_uart` reports no data (`false`,
`*out_count = 0`, no slots written) and flushes the entire buffer,
subsequent buffered bytes included. -/
theorem recv_bad_count_flushes_buffer (stream : List ℕ) (out_count0 : ℕ)
    (h20 : ¬ (stream.dropWhile (fun b => b ≠ UART_PACKET_HEADER)).length < UART_PACKET_SIZE)
    (hbad : MAX_BLOBS_TX < (stream.dropWhile (fun b => b ≠ UART_PACKET_HEADER)).getD 1 0) :
    recv_blobs_uart stream out_count0 = { ok := false, count := 0, blobs := [], rest := [] } := by
  unfold recv_blobs_uart
  simp only [h20, hbad, if_true, if_false]

/-- Witness for the amended C6 at a concrete malformed stream. -/
theorem recv_bad_count_flushes_buffer_witness :
    recv_blobs_uart ([3, 170, 200, 0, 0, 0, 0, 0, 0, 0, 0, 0, 0, 0, 0, 0, 0, 0, 0, 0, 0, 170, 4] : List ℕ) 9 =
      { ok := false, count := 0, blobs := [], rest := [] } :=
  recv_bad_count_flushes_buffer _ 9 (by decide) (by decide)

/-- C2 counterexample: a blob with pixel count 70000 (valid for the
detector) is saturated to 65535 by the wire format, so the decoded triple
is not bit-exactly the encoded one. -/
theorem uart_roundtrip_saturates_counterexample :
    (recv_blobs_uart (send_blobs_uart
        { blobs := [{ zeroBlob with cx := 5, cy := 6, pixel_count := 70000 }],
          blob_count := 1, scene_brightness := 0 }) 0).blobs = [(5, 6, 65535)] ∧
    ((5, 6, 65535) : ℕ × ℕ × ℕ) ≠ (5, 6, 70000) := by
  constructor
  · rfl
  · decide

/-- C2 amended: for any N ≤ MAX_BLOBS_TX blobs whose pixel counts fit the
wire format's 16-bit range (counts above 65535 are saturated), encoding
and decoding — with or without leading non-sync garbage bytes — succeeds
and recovers exactly the N (cx, cy, pixel_count) triples. -/
theorem uart_roundtrip_exact (garbage : List ℕ) (blobs : List blob_t) (out_count0 sb : ℕ)
    (hg : ∀ g ∈ garbage, g ≠ UART_PACKET_HEADER)
    (hlen : blobs.length ≤ MAX_BLOBS_TX)
    (hb : ∀ b ∈ blobs, b.cx < 65536 ∧ b.cy < 65536 ∧ b.pixel_count ≤ 65535) :
    recv_blobs_uart (garbage ++ send_blobs_uart
        { blobs := blobs, blob_count := blobs.length, scene_brightness := sb }) out_count0 =
      { ok := true, count := blobs.length,
        blobs := blobs.map (fun b => (b.cx, b.cy, b.pixel_count)), rest := [] } := by
  have hdrop : ∀ l2 : List ℕ, (garbage ++ l2).dropWhile (fun b => b ≠ UART_PACKET_HEADER) =
      l2.dropWhile (fun b => b ≠ UART_PACKET_HEADER) := by
    intro l2
    exact dropWhile_append_of_pos _ _ _ (fun x hx => by simpa using hg x hx)
  match blobs, hlen with
  | [], _ =>
    simp only [recv_blobs_uart, send_blobs_uart, hdrop]
    norm_num [encodeSlot, UART_PACKET_HEADER, UART_PACKET_SIZE, MAX_BLOBS_TX, List.dropWhile]
  | [a], _ =>
    obtain ⟨hacx, hacy, hapc⟩ := hb a (by simp)
    simp only [recv_blobs_uart, send_blobs_uart, hdrop]
    norm_num [encodeSlot, UART_PACKET_HEADER, UART_PACKET_SIZE, MAX_BLOBS_TX,
      List.dropWhile, u8, decodeSlot, if_neg (not_lt.mpr hapc), List.range_succ,
      Prod.ext_iff]
    omega
  | [a, b], _ =>
    obtain ⟨hacx, hacy, hapc⟩ := hb a (by simp)
    obtain ⟨hbcx, hbcy, hbpc⟩ := hb b (by simp)
    simp only [recv_blobs_uart, send_blobs_uart, hdrop]
    norm_num [encodeSlot, UART_PACKET_HEADER, UART_PACKET_SIZE, MAX_BLOBS_TX,
      List.dropWhile, u8, decodeSlot, if_neg (not_lt.mpr hapc), if_neg (not_lt.mpr hbpc),
      List.range_succ, Prod.ext_iff]
    omega
  | [a, b, c], _ =>
    obtain ⟨hacx, hacy, hapc⟩ := hb a (by simp)
    obtain ⟨hbcx, hbcy, hbpc⟩ := hb b (by simp)
    obtain ⟨hccx, hccy, hcpc⟩ := hb c (by simp)
    simp only [recv_blobs_uart, send_blobs_uart, hdrop]
    norm_num [encodeSlot, UART_PACKET_HEADER, UART_PACKET_SIZE, MAX_BLOBS_TX,
      List.dropWhile, u8, decodeSlot, if_neg (not_lt.mpr hapc), if_neg (not_lt.mpr hbpc),
      if_neg (not_lt.mpr hcpc), List.range_succ, Prod.ext_iff]
    omega

/-- Witness for the amended C2 at one concrete blob behind two garbage
bytes. -/
theorem uart_roundtrip_exact_witness :
    recv_blobs_uart ([1, 2] ++ send_blobs_uart
        { blobs := [{ zeroBlob with cx := 300, cy := 7, pixel_count := 1234 }],
          blob_count := 1, scene_brightness := 44 }) 9 =
      { ok := true, count := 1, blobs := [(300, 7, 1234)], rest := [] } := by
  have h := uart_roundtrip_exact [1, 2]
    [{ zeroBlob with cx := 300, cy := 7, pixel_count := 1234 }] 9 44
    (by decide) (by decide) (by decide)
  simpa using h

open Classical in
/-- C5: `triangulate_distance` returns the sentinel -1 exactly when the
horizontal disparity component is below STEREO_MIN_DISPARITY (hence also
when not positive) or the distance `baseline * focal / disparity` falls
outside the plausible range [0.5, 80]; otherwise it returns that
distance.  The float arithmetic is modelled over the reals; the interior
2D-disparity re-check can never fire because a horizontal component ≥ 1
already forces the Euclidean disparity ≥ 1. -/
theorem triangulate_distance_sentinel_iff (px py sx sy : ℕ) :
    triangulate_distance px py sx sy =
      if (sx : ℤ) - (px : ℤ) < (STEREO_MIN_DISPARITY : ℤ) ∨
         specStereoDistance px py sx sy < 0.5 ∨ 80 < specStereoDistance px py sx sy
      then -1 else specStereoDistance px py sx sy := by
  unfold triangulate_distance specStereoDistance
  by_cases hdx : (sx : ℤ) - (px : ℤ) < (STEREO_MIN_DISPARITY : ℤ)
  · simp [hdx]
  · have h1 : (1 : ℤ) ≤ (sx : ℤ) - (px : ℤ) := by
      simpa [STEREO_MIN_DISPARITY] using not_lt.mp hdx
    have hsq : (1 : ℝ) ≤ Real.sqrt
        ((((sx : ℤ) - px) * ((sx : ℤ) - px) + ((sy : ℤ) - py) * ((sy : ℤ) - py) : ℤ) : ℝ) := by
      have hz : (1 : ℤ) ≤ ((sx : ℤ) - px) * ((sx : ℤ) - px) + ((sy : ℤ) - py) * ((sy : ℤ) - py) := by
        nlinarith [mul_self_nonneg ((sy : ℤ) - py)]
      calc (1 : ℝ) = Real.sqrt 1 := by rw [Real.sqrt_one]
        _ ≤ _ := Real.sqrt_le_sqrt (by exact_mod_cast hz)
    have hguard : ¬ (Real.sqrt
        ((((sx : ℤ) - px) * ((sx : ℤ) - px) + ((sy : ℤ) - py) * ((sy : ℤ) - py) : ℤ) : ℝ) <
        ((STEREO_MIN_DISPARITY : ℕ) : ℝ)) := by
      simp only [STEREO_MIN_DISPARITY, Nat.cast_one]
      exact not_lt.mpr hsq
    simp only [hdx, if_false, hguard]
    by_cases hrange : STEREO_BASELINE_M * get_focal_px / Real.sqrt
        ((((sx : ℤ) - px) * ((sx : ℤ) - px) + ((sy : ℤ) - py) * ((sy : ℤ) - py) : ℤ) : ℝ) < 0.5 ∨
        (80 : ℝ) < STEREO_BASELINE_M * get_focal_px / Real.sqrt
        ((((sx : ℤ) - px) * ((sx : ℤ) - px) + ((sy : ℤ) - py) * ((sy : ℤ) - py) : ℤ) : ℝ)
    · simp [hrange, hdx]
    · simp [hrange, hdx]

/-- C7 amended: if the label-map allocation fails the result is the fully
zeroed struct; if the accumulator allocation fails the result has zero
blobs but carries the already-computed scene brightness (written at line
131, before the accumulator allocation). -/
theorem detect_blobs_alloc_failure (parent0 : List ℕ) (accsOk : Bool) (mergeDist : ℕ)
    (pixels : ℕ → ℕ) (width height : ℕ) :
    (detect_blobs parent0 false accsOk mergeDist pixels width height).1 = emptyResult ∧
    (detect_blobs parent0 true false mergeDist pixels width height).1 =
      { blobs := [], blob_count := 0,
        scene_brightness := sceneBrightnessOf parent0 pixels width height } := by
  constructor
  · rfl
  · rfl

/-- C7 counterexample: on an all-bright 4 x 7 frame with the accumulator
allocation failing, the returned result has blob count zero but scene
brightness 255, not the zero the claim requires. -/
theorem detect_blobs_alloc_brightness_counterexample :
    (detect_blobs (List.range 512) true false 12 pixAllBright 4 7).1 =
      { blobs := [], blob_count := 0, scene_brightness := 255 } ∧ (255 : ℕ) ≠ 0 := by
  constructor
  · rfl
  · decide

/-- The parent-init loop overwrites every entry of a MAX_LABELS-sized
array: folding `set i i` over `range n` rewrites the first `n` entries
to the identity. -/
theorem foldl_set_range (p : List ℕ) :
    ∀ n, n ≤ p.length →
      (List.range n).foldl (fun q i => q.set i i) p = List.range n ++ p.drop n := by
  intro n
  induction n with
  | zero => simp
  | succ m ih =>
    intro h
    rw [List.range_succ, List.foldl_append]
    simp only [List.foldl_cons, List.foldl_nil]
    rw [ih (by omega)]
    rw [List.set_append_right m m (by simp)]
    have hstep : (List.drop m p).set (m - (List.range m).length) m = m :: List.drop (m + 1) p := by
      rw [List.drop_eq_getElem_cons (show m < p.length by omega)]
      rw [show m - (List.range m).length = 0 by simp]
      rw [List.set_cons_zero]
    rw [hstep]
    simp [List.range_succ]

/-- Whatever a previous call left in the global union-find array, the
init loop at detector.cpp line 72 restores the identity. -/
theorem parentInit_eq (p : List ℕ) (h : p.length = MAX_LABELS) :
    parentInit p = List.range MAX_LABELS := by
  unfold parentInit
  rw [foldl_set_range p MAX_LABELS (by omega)]
  simp [h]

/-- C8: two runs of `detect_blobs` on the same pixel buffer, width and
height (with the scratch allocations succeeding) return identical
results — same blob count, same per-blob fields in the same order, same
scene brightness — regardless of what the process-global union-find
array held before each run, because the init loop overwrites it. -/
theorem detect_blobs_deterministic (p1 p2 : List ℕ)
    (h1 : p1.length = MAX_LABELS) (h2 : p2.length = MAX_LABELS)
    (mergeDist : ℕ) (pixels : ℕ → ℕ) (width height : ℕ) :
    (detect_blobs p1 true true mergeDist pixels width height).1 =
      (detect_blobs p2 true true mergeDist pixels width height).1 := by
  unfold detect_blobs sceneBrightnessOf
  rw [parentInit_eq p1 h1, parentInit_eq p2 h2]
  simp only [Bool.true_eq_false, if_false]

/-- Witness for C8: two different prior global states, same frame, equal
results. -/
theorem detect_blobs_deterministic_witness :
    (detect_blobs (List.range 512) true true 12 pixAllBright 5 8).1 =
      (detect_blobs (List.replicate 512 7) true true 12 pixAllBright 5 8).1 :=
  detect_blobs_deterministic (List.range 512) (List.replicate 512 7)
    (by rw [List.length_range]; rfl) (by rw [List.length_replicate]; rfl) 12 pixAllBright 5 8

/-- The inner merge scan never lengthens the remaining list. -/
theorem mergeScan_snd_length (mergeDist : ℕ) :
    ∀ (b : blob_t) (l : List blob_t), (mergeScan mergeDist b l).2.length ≤ l.length := by
  intro b l
  induction l generalizing b with
  | nil => simp [mergeScan]
  | cons c rest ih =>
    by_cases hd : blobManhattan b c ≤ mergeDist
    · simp only [mergeScan, hd, if_true]
      exact le_trans (ih (mergeBlobs b c)) (by simp)
    · simp only [mergeScan, hd, if_false]
      simpa using ih b

/-- The merge pass never lengthens the blob list. -/
theorem mergeLoop_length (mergeDist : ℕ) :
    ∀ (fuel : ℕ) (l : List blob_t), (mergeLoop mergeDist fuel l).length ≤ l.length := by
  intro fuel
  induction fuel with
  | zero => intro l; simp [mergeLoop]
  | succ f ih =>
    intro l
    match l with
    | [] => simp [mergeLoop]
    | b :: rest =>
      simp only [mergeLoop, List.length_cons]
      have h1 := ih (mergeScan mergeDist b rest).2
      have h2 := mergeScan_snd_length mergeDist b rest
      omega

/-- A merge scan against blobs that are all beyond the threshold is the
identity. -/
theorem mergeScan_far (mergeDist : ℕ) :
    ∀ (b : blob_t) (l : List blob_t), (∀ c ∈ l, mergeDist < blobManhattan b c) →
      mergeScan mergeDist b l = (b, l) := by
  intro b l
  induction l generalizing b with
  | nil => intro _; simp [mergeScan]
  | cons c rest ih =>
    intro h
    have hc : mergeDist < blobManhattan b c := h c (by simp)
    simp only [mergeScan, if_neg (not_le.mpr hc)]
    rw [ih b (fun d hd => h d (by simp [hd]))]

/-- A merge scan that keeps the list length fired no merge: it returns
its input and every scanned blob lies beyond the threshold. -/
theorem mergeScan_of_length_eq (mergeDist : ℕ) :
    ∀ (b : blob_t) (l : List blob_t), (mergeScan mergeDist b l).2.length = l.length →
      mergeScan mergeDist b l = (b, l) ∧ ∀ c ∈ l, mergeDist < blobManhattan b c := by
  intro b l
  induction l generalizing b with
  | nil => intro _; simp [mergeScan]
  | cons c rest ih =>
    intro hlen
    by_cases hd : blobManhattan b c ≤ mergeDist
    · exfalso
      have := mergeScan_snd_length mergeDist (mergeBlobs b c) rest
      simp only [mergeScan, hd, if_true, List.length_cons] at hlen
      omega
    · simp only [mergeScan, hd, if_false] at hlen ⊢
      simp only [List.length_cons] at hlen
      have hlen2 : (mergeScan mergeDist b rest).2.length = rest.length := by
        simpa using hlen
      obtain ⟨heq, hfar⟩ := ih b hlen2
      rw [heq]
      refine ⟨by simp, ?_⟩
      intro d hd2
      rcases List.mem_cons.mp hd2 with rfl | hd2
      · exact not_le.mp hd
      · exact hfar d hd2

/-- C9 amended: the merge pass leaves a blob list unchanged exactly when
every pair of blobs is strictly beyond the merge threshold.  In
particular, a merge-pass output in which two blobs lie within the
threshold (which the counterexample exhibits) is changed by a second
application: full post-merge idempotence does not hold, because a
pixel-count-weighted merge can move a centroid back within the threshold
of an earlier, already-final blob. -/
theorem mergeLoop_fixed_point_iff (mergeDist : ℕ) (l : List blob_t) :
    mergeLoop mergeDist l.length l = l ↔
      l.Pairwise (fun a c => mergeDist < blobManhattan a c) := by
  induction l with
  | nil => simp [mergeLoop]
  | cons b rest ih =>
    constructor
    · intro h
      simp only [List.length_cons, mergeLoop] at h
      injection h with h1 h2
      have hl1 : (mergeLoop mergeDist rest.length (mergeScan mergeDist b rest).2).length =
          rest.length := by rw [h2]
      have hl2 := mergeLoop_length mergeDist rest.length (mergeScan mergeDist b rest).2
      have hl3 := mergeScan_snd_length mergeDist b rest
      have hlen : (mergeScan mergeDist b rest).2.length = rest.length := by omega
      obtain ⟨heq, hfar⟩ := mergeScan_of_length_eq mergeDist b rest hlen
      rw [heq] at h2
      exact List.Pairwise.cons hfar (ih.mp h2)
    · intro h
      obtain ⟨hfar, hrest⟩ := List.pairwise_cons.mp h
      simp only [List.length_cons, mergeLoop]
      rw [mergeScan_far mergeDist b rest hfar]
      rw [ih.mpr hrest]

set_option maxRecDepth 40000 in
/-- C9 counterexample: on the three-rectangle frame, with merge distance
12, `detect_blobs` merges the two 18-pixel blobs into a blob at (19, 12)
that lies at Manhattan distance 11 ≤ 12 from the reported blob at
(10, 10): two reported blobs sit within the merge threshold, and
re-running the merge pass changes the result. -/
theorem detect_merge_not_idempotent_counterexample :
    (detect_blobs (List.range 512) true true 12 pixThreeBlobs 22 26).1.blobs =
      [{ zeroBlob with cx := 10, cy := 10, pixel_count := 20, brightness_sum := 5100 },
       { zeroBlob with cx := 19, cy := 12, pixel_count := 36, brightness_sum := 9180 }] ∧
    blobManhattan { zeroBlob with cx := 10, cy := 10, pixel_count := 20, brightness_sum := 5100 }
      { zeroBlob with cx := 19, cy := 12, pixel_count := 36, brightness_sum := 9180 } ≤ 12 ∧
    mergeLoop 12 2
      [{ zeroBlob with cx := 10, cy := 10, pixel_count := 20, brightness_sum := 5100 },
       { zeroBlob with cx := 19, cy := 12, pixel_count := 36, brightness_sum := 9180 }] ≠
      [{ zeroBlob with cx := 10, cy := 10, pixel_count := 20, brightness_sum := 5100 },
       { zeroBlob with cx := 19, cy := 12, pixel_count := 36, brightness_sum := 9180 }] := by
  refine ⟨by rfl, by decide, by decide⟩

-- Every per-blob iteration appends exactly one blob and one match-map
-- entry and recurses with some accumulators, preserving the centroid.
theorem trackLoop_cons (state : tracker_state_t) (b : blob_t) (rest : List blob_t)
    (matched : List Bool) (mm : List ℤ) (done : List blob_t)
    (conf pend : List blob_class_t) (votes : List ℕ) :
    ∃ M y x C P V,
      trackLoop state (b :: rest) matched mm done conf pend votes =
        trackLoop state rest M (mm ++ [y]) (done ++ [x]) C P V ∧
      x.cx = b.cx ∧ x.cy = b.cy ∧ x.pixel_count = b.pixel_count := by
  by_cases h1 : FRAME_HEIGHT * 3 / 4 < b.cy ∧ MAX_BLOB_PIXELS / 2 < b.pixel_count
  · simp only [trackLoop, if_pos h1]
    exact ⟨_, _, _, _, _, _, rfl, rfl, rfl, rfl⟩
  · by_cases h2 : state.count = 0
    · simp only [trackLoop, if_neg h1, if_pos h2]
      exact ⟨_, _, _, _, _, _, rfl, rfl, rfl, rfl⟩
    · by_cases h3 : (findBestMatch b.cx b.cy state.cx state.cy matched (List.range state.count)
          (-1, 2147483647)).1 < 0 ∨
          TRACKER_MAX_MATCH_DIST < (findBestMatch b.cx b.cy state.cx state.cy matched
            (List.range state.count) (-1, 2147483647)).2
      · simp only [trackLoop, if_neg h1, if_neg h2, if_pos h3]
        exact ⟨_, _, _, _, _, _, rfl, rfl, rfl, rfl⟩
      · simp only [trackLoop, if_neg h1, if_neg h2, if_neg h3]
        exact ⟨_, _, _, _, _, _, rfl, rfl, rfl, rfl⟩

theorem trackLoop_lengths (state : tracker_state_t) :
    ∀ (bs : List blob_t) matched mm done conf pend votes,
      (trackLoop state bs matched mm done conf pend votes).blobs.length =
        done.length + bs.length ∧
      (trackLoop state bs matched mm done conf pend votes).match_map.length =
        mm.length + bs.length := by
  intro bs
  induction bs with
  | nil => intro matched mm done conf pend votes; simp [trackLoop]
  | cons b rest ih =>
    intro matched mm done conf pend votes
    obtain ⟨M, y, x, C, P, V, heq, -, -, -⟩ := trackLoop_cons state b rest matched mm done conf pend votes
    rw [heq]
    obtain ⟨e1, e2⟩ := ih M (mm ++ [y]) (done ++ [x]) C P V
    rw [e1, e2]
    simp only [List.length_append, List.length_cons, List.length_nil]
    omega

theorem trackLoop_front (state : tracker_state_t) :
    ∀ (bs : List blob_t) matched mm done conf pend votes (idx : ℕ),
      (idx < done.length →
        (trackLoop state bs matched mm done conf pend votes).blobs.getD idx zeroBlob =
          done.getD idx zeroBlob) ∧
      (idx < mm.length →
        (trackLoop state bs matched mm done conf pend votes).match_map.getD idx (-1) =
          mm.getD idx (-1)) := by
  intro bs
  induction bs with
  | nil => intro matched mm done conf pend votes idx; simp [trackLoop]
  | cons b rest ih =>
    intro matched mm done conf pend votes idx
    obtain ⟨M, y, x, C, P, V, heq, -, -, -⟩ := trackLoop_cons state b rest matched mm done conf pend votes
    rw [heq]
    obtain ⟨p1, p2⟩ := ih M (mm ++ [y]) (done ++ [x]) C P V idx
    constructor
    · intro h
      rw [p1 (by simp; omega)]
      rw [List.getD_eq_getElem?_getD, List.getD_eq_getElem?_getD,
        List.getElem?_append_left h]
    · intro h
      rw [p2 (by simp; omega)]
      rw [List.getD_eq_getElem?_getD, List.getD_eq_getElem?_getD,
        List.getElem?_append_left h]

theorem trackLoop_blobs_centroid (state : tracker_state_t) :
    ∀ (bs : List blob_t) matched mm done conf pend votes (k : ℕ), k < bs.length →
      ((trackLoop state bs matched mm done conf pend votes).blobs.getD
          (done.length + k) zeroBlob).cx = (bs.getD k zeroBlob).cx ∧
      ((trackLoop state bs matched mm done conf pend votes).blobs.getD
          (done.length + k) zeroBlob).cy = (bs.getD k zeroBlob).cy := by
  intro bs
  induction bs with
  | nil => intro _ _ _ _ _ _ k hk; simp at hk
  | cons b rest ih =>
    intro matched mm done conf pend votes k hk
    obtain ⟨M, y, x, C, P, V, heq, hx, hy, -⟩ :=
      trackLoop_cons state b rest matched mm done conf pend votes
    rw [heq]
    match k with
    | 0 =>
      have hpre := (trackLoop_front state rest M (mm ++ [y]) (done ++ [x]) C P V
        done.length).1 (by simp)
      rw [Nat.add_zero, hpre]
      have : (done ++ [x]).getD done.length zeroBlob = x := by
        rw [List.getD_eq_getElem?_getD, List.getElem?_concat_length]
        rfl
      rw [this]
      simp [hx, hy]
    | k + 1 =>
      have hidx : done.length + (k + 1) = (done ++ [x]).length + k := by
        simp only [List.length_append, List.length_cons, List.length_nil]
        omega
      rw [hidx]
      have := ih M (mm ++ [y]) (done ++ [x]) C P V k (by simp at hk; omega)
      simpa [List.getD_cons_succ] using this

-- findBestMatch only ever selects a not-yet-matched candidate from the
-- slot list, or keeps the incoming best.
theorem findBestMatch_mem (bcx bcy : ℕ) (scx scy : List ℕ) (matched : List Bool) :
    ∀ (js : List ℕ) (best : ℤ × ℕ),
      (findBestMatch bcx bcy scx scy matched js best).1 = best.1 ∨
      ((findBestMatch bcx bcy scx scy matched js best).1.toNat ∈ js ∧
        0 ≤ (findBestMatch bcx bcy scx scy matched js best).1 ∧
        matched.getD (findBestMatch bcx bcy scx scy matched js best).1.toNat false = false) := by
  intro js
  induction js with
  | nil => intro best; left; simp [findBestMatch]
  | cons j js ih =>
    intro best
    cases hmb : matched.getD j false with
    | true =>
      have hstep : findBestMatch bcx bcy scx scy matched (j :: js) best =
          findBestMatch bcx bcy scx scy matched js best := by
        simp only [findBestMatch, hmb, if_true]
      rw [hstep]
      rcases ih best with h | ⟨h1, h2, h3⟩
      · left; exact h
      · right; exact ⟨List.mem_cons_of_mem j h1, h2, h3⟩
    | false =>
      by_cases hd : slotManhattan bcx bcy (scx.getD j 0) (scy.getD j 0) < best.2
      · have hstep : findBestMatch bcx bcy scx scy matched (j :: js) best =
            findBestMatch bcx bcy scx scy matched js
              ((j : ℤ), slotManhattan bcx bcy (scx.getD j 0) (scy.getD j 0)) := by
          simp only [findBestMatch, hmb, Bool.false_eq_true, if_false, hd, if_true]
        rw [hstep]
        rcases ih ((j : ℤ), slotManhattan bcx bcy (scx.getD j 0) (scy.getD j 0)) with h | ⟨h1, h2, h3⟩
        · right
          refine ⟨?_, ?_, ?_⟩
          · rw [h]
            exact List.mem_cons_self j js
          · rw [h]
            exact Int.ofNat_nonneg j
          · rw [h]
            simpa using hmb
        · right; exact ⟨List.mem_cons_of_mem j h1, h2, h3⟩
      · have hstep : findBestMatch bcx bcy scx scy matched (j :: js) best =
            findBestMatch bcx bcy scx scy matched js best := by
          simp only [findBestMatch, hmb, Bool.false_eq_true, if_false, hd]
        rw [hstep]
        rcases ih best with h | ⟨h1, h2, h3⟩
        · left; exact h
        · right; exact ⟨List.mem_cons_of_mem j h1, h2, h3⟩

theorem getD_set_self {α : Type} (l : List α) (i : ℕ) (v d : α) (h : i < l.length) :
    (l.set i v).getD i d = v := by
  rw [List.getD_eq_getElem?_getD, List.getElem?_set_self h]
  rfl

theorem getD_set_ne {α : Type} (l : List α) (i j : ℕ) (v d : α) (h : i ≠ j) :
    (l.set i v).getD j d = l.getD j d := by
  rw [List.getD_eq_getElem?_getD, List.getElem?_set_ne h, ← List.getD_eq_getElem?_getD]

-- One matched-branch-aware step characterization of the per-blob loop.
theorem trackLoop_cons_spec (state : tracker_state_t) (b : blob_t) (rest : List blob_t)
    (matched : List Bool) (mm : List ℤ) (done : List blob_t)
    (conf pend : List blob_class_t) (votes : List ℕ)
    (hlc : state.count ≤ conf.length) (hlp : state.count ≤ pend.length)
    (hlv : state.count ≤ votes.length) :
    (∃ y x, y < 0 ∧
      trackLoop state (b :: rest) matched mm done conf pend votes =
        trackLoop state rest matched (mm ++ [y]) (done ++ [x]) conf pend votes) ∨
    (∃ jj x C P V,
      trackLoop state (b :: rest) matched mm done conf pend votes =
        trackLoop state rest (matched.set jj true) (mm ++ [(jj : ℤ)]) (done ++ [x]) C P V ∧
      matched.getD jj false = false ∧ jj < state.count ∧
      (∀ j, j ≠ jj →
        C.getD j blob_class_t.UNKNOWN = conf.getD j blob_class_t.UNKNOWN ∧
        P.getD j blob_class_t.UNKNOWN = pend.getD j blob_class_t.UNKNOWN ∧
        V.getD j 0 = votes.getD j 0) ∧
      P.getD jj blob_class_t.UNKNOWN = rawClassAt state b jj ∧
      V.getD jj 0 = (if rawClassAt state b jj = pend.getD jj blob_class_t.UNKNOWN then
          (if votes.getD jj 0 < 255 then votes.getD jj 0 + 1 else votes.getD jj 0) else 1) ∧
      C.getD jj blob_class_t.UNKNOWN =
        (if TRACKER_CONFIRM_FRAMES ≤ V.getD jj 0 then P.getD jj blob_class_t.UNKNOWN
         else conf.getD jj blob_class_t.UNKNOWN) ∧
      x.classification = C.getD jj blob_class_t.UNKNOWN ∧
      C.length = conf.length ∧ P.length = pend.length ∧ V.length = votes.length) := by
  by_cases h1 : FRAME_HEIGHT * 3 / 4 < b.cy ∧ MAX_BLOB_PIXELS / 2 < b.pixel_count
  · left
    exact ⟨-1, { b with classification := blob_class_t.STATIC_LIGHT, dx := 0, dy := 0 },
      by norm_num, by simp only [trackLoop, if_pos h1]⟩
  · by_cases h2 : state.count = 0
    · left
      exact ⟨-1, { b with classification := blob_class_t.UNKNOWN, dx := 0, dy := 0 },
        by norm_num, by simp only [trackLoop, if_neg h1, if_pos h2]⟩
    · by_cases h3 : (findBestMatch b.cx b.cy state.cx state.cy matched (List.range state.count)
          (-1, 2147483647)).1 < 0 ∨
          TRACKER_MAX_MATCH_DIST < (findBestMatch b.cx b.cy state.cx state.cy matched
            (List.range state.count) (-1, 2147483647)).2
      · left
        exact ⟨-1, { b with classification := blob_class_t.UNKNOWN, dx := 0, dy := 0 },
          by norm_num, by simp only [trackLoop, if_neg h1, if_neg h2, if_pos h3]⟩
      · right
        have h3' := h3
        push_neg at h3'
        have hnn : (0 : ℤ) ≤ (findBestMatch b.cx b.cy state.cx state.cy matched
            (List.range state.count) (-1, 2147483647)).1 := h3'.1
        have hmem := findBestMatch_mem b.cx b.cy state.cx state.cy matched
          (List.range state.count) (-1, 2147483647)
        rcases hmem with hbad | ⟨hin, -, hunm⟩
        · exfalso
          rw [hbad] at hnn
          norm_num at hnn
        · set jj := (findBestMatch b.cx b.cy state.cx state.cy matched
            (List.range state.count) (-1, 2147483647)).1.toNat with hjj
          have hjlt : jj < state.count := List.mem_range.mp hin
          set raw := classify_from_motion
            ((i16 ((b.cx : ℤ) - (state.cx.getD jj 0 : ℤ))).natAbs +
             (i16 ((b.cy : ℤ) - (state.cy.getD jj 0 : ℤ))).natAbs) with hraw
          have hraweq : raw = rawClassAt state b jj := rfl
          set P := if raw = pend.getD jj blob_class_t.UNKNOWN then pend else pend.set jj raw
            with hPdef
          set V := if raw = pend.getD jj blob_class_t.UNKNOWN then
              (if votes.getD jj 0 < 255 then votes.set jj (votes.getD jj 0 + 1) else votes)
            else votes.set jj 1 with hVdef
          set C := if TRACKER_CONFIRM_FRAMES ≤ V.getD jj 0 then
              conf.set jj (P.getD jj blob_class_t.UNKNOWN) else conf with hCdef
          have hPjj : P.getD jj blob_class_t.UNKNOWN = raw := by
            rw [hPdef]
            by_cases ha : raw = pend.getD jj blob_class_t.UNKNOWN
            · rw [if_pos ha]; exact ha.symm
            · rw [if_neg ha]; exact getD_set_self pend jj raw _ (by omega)
          have hVjj : V.getD jj 0 = (if raw = pend.getD jj blob_class_t.UNKNOWN then
              (if votes.getD jj 0 < 255 then votes.getD jj 0 + 1 else votes.getD jj 0) else 1) := by
            rw [hVdef]
            by_cases ha : raw = pend.getD jj blob_class_t.UNKNOWN
            · rw [if_pos ha, if_pos ha]
              by_cases hc : votes.getD jj 0 < 255
              · rw [if_pos hc, if_pos hc]
                exact getD_set_self votes jj _ _ (by omega)
              · rw [if_neg hc, if_neg hc]
            · rw [if_neg ha, if_neg ha]
              exact getD_set_self votes jj 1 _ (by omega)
          have hCjj : C.getD jj blob_class_t.UNKNOWN =
              (if TRACKER_CONFIRM_FRAMES ≤ V.getD jj 0 then P.getD jj blob_class_t.UNKNOWN
               else conf.getD jj blob_class_t.UNKNOWN) := by
            rw [hCdef]
            by_cases ht : TRACKER_CONFIRM_FRAMES ≤ V.getD jj 0
            · rw [if_pos ht, if_pos ht]
              exact getD_set_self conf jj _ _ (by omega)
            · rw [if_neg ht, if_neg ht]
          set x1 : blob_t := { b with classification := C.getD jj blob_class_t.UNKNOWN, dx := i16 ((b.cx : ℤ) - (state.cx.getD jj 0 : ℤ)), dy := i16 ((b.cy : ℤ) - (state.cy.getD jj 0 : ℤ)) } with hx1
          refine ⟨jj, x1, C, P, V, ?_, hunm, hjlt, ?_, ?_, ?_, ?_, rfl, ?_, ?_, ?_⟩
          · simp only [trackLoop, if_neg h1, if_neg h2, if_neg h3]
          · intro j hne
            refine ⟨?_, ?_, ?_⟩
            · rw [hCdef]
              by_cases ht : TRACKER_CONFIRM_FRAMES ≤ V.getD jj 0
              · rw [if_pos ht]; exact getD_set_ne conf jj j _ _ (fun he => hne he.symm)
              · rw [if_neg ht]
            · rw [hPdef]
              by_cases ha : raw = pend.getD jj blob_class_t.UNKNOWN
              · rw [if_pos ha]
              · rw [if_neg ha]; exact getD_set_ne pend jj j _ _ (fun he => hne he.symm)
            · rw [hVdef]
              by_cases ha : raw = pend.getD jj blob_class_t.UNKNOWN
              · rw [if_pos ha]
                by_cases hc : votes.getD jj 0 < 255
                · rw [if_pos hc]; exact getD_set_ne votes jj j _ _ (fun he => hne he.symm)
                · rw [if_neg hc]
              · rw [if_neg ha]; exact getD_set_ne votes jj j _ _ (fun he => hne he.symm)
          · rw [hPjj, hraweq]
          · rw [hVjj, hraweq]
          · exact hCjj
          · rw [hCdef]
            by_cases ht : TRACKER_CONFIRM_FRAMES ≤ V.getD jj 0
            · rw [if_pos ht, List.length_set]
            · rw [if_neg ht]
          · rw [hPdef]
            by_cases ha : raw = pend.getD jj blob_class_t.UNKNOWN
            · rw [if_pos ha]
            · rw [if_neg ha, List.length_set]
          · rw [hVdef]
            by_cases ha : raw = pend.getD jj blob_class_t.UNKNOWN
            · rw [if_pos ha]
              by_cases hc : votes.getD jj 0 < 255
              · rw [if_pos hc, List.length_set]
              · rw [if_neg hc]
            · rw [if_neg ha, List.length_set]

-- Once a previous-frame slot is marked matched, its vote state is final
-- for the rest of the loop.
theorem trackLoop_frozen (state : tracker_state_t) :
    ∀ (bs : List blob_t) matched mm done conf pend votes (j : ℕ),
      state.count ≤ conf.length → state.count ≤ pend.length → state.count ≤ votes.length →
      matched.getD j false = true →
      (trackLoop state bs matched mm done conf pend votes).confirmed_class.getD j
          blob_class_t.UNKNOWN = conf.getD j blob_class_t.UNKNOWN ∧
      (trackLoop state bs matched mm done conf pend votes).pending_class.getD j
          blob_class_t.UNKNOWN = pend.getD j blob_class_t.UNKNOWN ∧
      (trackLoop state bs matched mm done conf pend votes).vote_count.getD j 0 =
        votes.getD j 0 := by
  intro bs
  induction bs with
  | nil =>
    intro matched mm done conf pend votes j _ _ _ _
    exact ⟨rfl, rfl, rfl⟩
  | cons b rest ih =>
    intro matched mm done conf pend votes j hlc hlp hlv hj
    rcases trackLoop_cons_spec state b rest matched mm done conf pend votes hlc hlp hlv with
      ⟨y, x, -, heq⟩ | ⟨jj, x, C, P, V, heq, hunm, hjlt, hfro, -, -, -, -, hClen, hPlen, hVlen⟩
    · rw [heq]
      exact ih matched (mm ++ [y]) (done ++ [x]) conf pend votes j hlc hlp hlv hj
    · rw [heq]
      have hne : j ≠ jj := by
        intro he
        rw [he] at hj
        rw [hj] at hunm
        cases hunm
      have hj' : (matched.set jj true).getD j false = true := by
        rw [getD_set_ne matched jj j true false (fun he => hne he.symm)]
        exact hj
      obtain ⟨e1, e2, e3⟩ := ih (matched.set jj true) (mm ++ [(jj : ℤ)]) (done ++ [x]) C P V j
        (by omega) (by omega) (by omega) hj'
      obtain ⟨f1, f2, f3⟩ := hfro j hne
      exact ⟨e1.trans f1, e2.trans f2, e3.trans f3⟩

-- Main loop invariant: a current blob k recorded as matched to slot j
-- receives the slot's post-voting confirmed class, and the slot's final
-- vote state is the hysteresis update of the pre-call state.
theorem trackLoop_matched_spec (state : tracker_state_t) :
    ∀ (bs : List blob_t) matched mm done conf pend votes,
      state.count ≤ conf.length → state.count ≤ pend.length → state.count ≤ votes.length →
      state.count ≤ matched.length → mm.length = done.length →
      (∀ j, matched.getD j false = false →
        conf.getD j blob_class_t.UNKNOWN = state.confirmed_class.getD j blob_class_t.UNKNOWN ∧
        pend.getD j blob_class_t.UNKNOWN = state.pending_class.getD j blob_class_t.UNKNOWN ∧
        votes.getD j 0 = state.vote_count.getD j 0) →
      ∀ (k : ℕ) (j : ℕ), k < bs.length →
      (trackLoop state bs matched mm done conf pend votes).match_map.getD
        (done.length + k) (-1) = ((j : ℕ) : ℤ) →
      j < state.count ∧
      (trackLoop state bs matched mm done conf pend votes).pending_class.getD j
          blob_class_t.UNKNOWN = rawClassAt state (bs.getD k zeroBlob) j ∧
      (trackLoop state bs matched mm done conf pend votes).vote_count.getD j 0 =
        voteUpdate state j (rawClassAt state (bs.getD k zeroBlob) j) ∧
      (trackLoop state bs matched mm done conf pend votes).confirmed_class.getD j
          blob_class_t.UNKNOWN =
        (if TRACKER_CONFIRM_FRAMES ≤ voteUpdate state j (rawClassAt state (bs.getD k zeroBlob) j)
         then rawClassAt state (bs.getD k zeroBlob) j
         else state.confirmed_class.getD j blob_class_t.UNKNOWN) ∧
      ((trackLoop state bs matched mm done conf pend votes).blobs.getD
          (done.length + k) zeroBlob).classification =
        (trackLoop state bs matched mm done conf pend votes).confirmed_class.getD j
          blob_class_t.UNKNOWN := by
  intro bs
  induction bs with
  | nil =>
    intro matched mm done conf pend votes _ _ _ _ _ _ k j hk
    simp at hk
  | cons b rest ih =>
    intro matched mm done conf pend votes hlc hlp hlv hlm hmmlen hinv k j hk hmk
    rcases trackLoop_cons_spec state b rest matched mm done conf pend votes hlc hlp hlv with
      ⟨y, x, hy, heq⟩ | ⟨jj, x, C, P, V, heq, hunm, hjlt, hfro, hPjj, hVjj, hCjj, hxcls,
        hClen, hPlen, hVlen⟩
    · rw [heq] at hmk ⊢
      match k with
      | 0 =>
        exfalso
        have hpre := (trackLoop_front state rest matched (mm ++ [y]) (done ++ [x]) conf pend
          votes done.length).2 (by simp; omega)
        rw [Nat.add_zero] at hmk
        rw [hpre] at hmk
        have : (mm ++ [y]).getD done.length (-1) = y := by
          rw [← hmmlen, List.getD_eq_getElem?_getD, List.getElem?_concat_length]
          rfl
        rw [this] at hmk
        omega
      | k + 1 =>
        have hidx : done.length + (k + 1) = (done ++ [x]).length + k := by simp; omega
        rw [hidx] at hmk ⊢
        have hinv2 := hinv
        have := ih matched (mm ++ [y]) (done ++ [x]) conf pend votes hlc hlp hlv hlm
          (by simp; omega) hinv2 k j (by simp at hk; omega) hmk
        simpa [List.getD_cons_succ] using this
    · rw [heq] at hmk ⊢
      have hmlen' : (matched.set jj true).length = matched.length := List.length_set ..
      have hmjj : (matched.set jj true).getD jj false = true :=
        getD_set_self matched jj true false (by omega)
      match k with
      | 0 =>
        -- the recorded entry is jj
        have hpre := (trackLoop_front state rest (matched.set jj true) (mm ++ [(jj : ℤ)])
          (done ++ [x]) C P V done.length).2 (by simp; omega)
        rw [Nat.add_zero] at hmk
        rw [hpre] at hmk
        have hentry : (mm ++ [(jj : ℤ)]).getD done.length (-1) = (jj : ℤ) := by
          rw [← hmmlen, List.getD_eq_getElem?_getD, List.getElem?_concat_length]
          rfl
        rw [hentry] at hmk
        have hjeq : j = jj := by omega
        subst hjeq
        obtain ⟨hic, hip, hiv⟩ := hinv j hunm
        obtain ⟨fc, fp, fv⟩ := trackLoop_frozen state rest (matched.set j true)
          (mm ++ [(j : ℤ)]) (done ++ [x]) C P V j (by omega) (by omega) (by omega) hmjj
        have hb0 : (b :: rest).getD 0 zeroBlob = b := rfl
        rw [hb0]
        refine ⟨hjlt, ?_, ?_, ?_, ?_⟩
        · rw [fp, hPjj]
        · rw [fv, hVjj, voteUpdate, hip, hiv]
        · rw [fc, hCjj, hVjj, voteUpdate, hip, hiv, hPjj, hic]
        · have hxpre := (trackLoop_front state rest (matched.set j true) (mm ++ [(j : ℤ)])
            (done ++ [x]) C P V done.length).1 (by simp)
          rw [Nat.add_zero, hxpre]
          have hxat : (done ++ [x]).getD done.length zeroBlob = x := by
            rw [List.getD_eq_getElem?_getD, List.getElem?_concat_length]
            rfl
          rw [hxat, hxcls, fc]
      | k + 1 =>
        have hidx : done.length + (k + 1) = (done ++ [x]).length + k := by simp; omega
        rw [hidx] at hmk ⊢
        have hinv' : ∀ j', (matched.set jj true).getD j' false = false →
            C.getD j' blob_class_t.UNKNOWN = state.confirmed_class.getD j' blob_class_t.UNKNOWN ∧
            P.getD j' blob_class_t.UNKNOWN = state.pending_class.getD j' blob_class_t.UNKNOWN ∧
            V.getD j' 0 = state.vote_count.getD j' 0 := by
          intro j' hj'
          have hne : j' ≠ jj := by
            intro he
            rw [he, hmjj] at hj'
            cases hj'
          have hum : matched.getD j' false = false := by
            rw [getD_set_ne matched jj j' true false (fun he => hne he.symm)] at hj'
            exact hj'
          obtain ⟨g1, g2, g3⟩ := hfro j' hne
          obtain ⟨i1, i2, i3⟩ := hinv j' hum
          exact ⟨g1.trans i1, g2.trans i2, g3.trans i3⟩
        have := ih (matched.set jj true) (mm ++ [(jj : ℤ)]) (done ++ [x]) C P V
          (by omega) (by omega) (by omega) (by omega) (by simp; omega) hinv' k j
          (by simp at hk; omega) hmk
        simpa [List.getD_cons_succ] using this

theorem remapLoop_append (mm : List ℤ) (conf pend : List blob_class_t) (votes : List ℕ) :
    ∀ (l1 l2 : List ℕ) nc np nv,
      remapLoop mm conf pend votes (l1 ++ l2) nc np nv =
        remapLoop mm conf pend votes l2
          (remapLoop mm conf pend votes l1 nc np nv).1
          (remapLoop mm conf pend votes l1 nc np nv).2.1
          (remapLoop mm conf pend votes l1 nc np nv).2.2 := by
  intro l1
  induction l1 with
  | nil => intro l2 nc np nv; rfl
  | cons a l ih =>
    intro l2 nc np nv
    by_cases h : (0 : ℤ) ≤ mm.getD a (-1)
    · simp only [List.cons_append, remapLoop, if_pos h]
      exact ih l2 _ _ _
    · simp only [List.cons_append, remapLoop, if_neg h]
      exact ih l2 _ _ _

theorem remapLoop_lengths (mm : List ℤ) (conf pend : List blob_class_t) (votes : List ℕ) :
    ∀ (is : List ℕ) nc np nv,
      (remapLoop mm conf pend votes is nc np nv).1.length = nc.length ∧
      (remapLoop mm conf pend votes is nc np nv).2.1.length = np.length ∧
      (remapLoop mm conf pend votes is nc np nv).2.2.length = nv.length := by
  intro is
  induction is with
  | nil => intro nc np nv; exact ⟨rfl, rfl, rfl⟩
  | cons a l ih =>
    intro nc np nv
    by_cases h : (0 : ℤ) ≤ mm.getD a (-1)
    · simp only [remapLoop, if_pos h]
      obtain ⟨e1, e2, e3⟩ := ih (nc.set a _) (np.set a _) (nv.set a _)
      rw [e1, e2, e3]
      simp [List.length_set]
    · simp only [remapLoop, if_neg h]
      exact ih nc np nv

theorem remapLoop_untouched (mm : List ℤ) (conf pend : List blob_class_t) (votes : List ℕ) :
    ∀ (is : List ℕ) nc np nv (q : ℕ), q ∉ is →
      (remapLoop mm conf pend votes is nc np nv).1.getD q blob_class_t.UNKNOWN =
        nc.getD q blob_class_t.UNKNOWN ∧
      (remapLoop mm conf pend votes is nc np nv).2.1.getD q blob_class_t.UNKNOWN =
        np.getD q blob_class_t.UNKNOWN ∧
      (remapLoop mm conf pend votes is nc np nv).2.2.getD q 0 = nv.getD q 0 := by
  intro is
  induction is with
  | nil => intro nc np nv q _; exact ⟨rfl, rfl, rfl⟩
  | cons a l ih =>
    intro nc np nv q hq
    have hqa : q ≠ a := fun he => hq (by simp [he])
    have hql : q ∉ l := fun he => hq (by simp [he])
    by_cases h : (0 : ℤ) ≤ mm.getD a (-1)
    · simp only [remapLoop, if_pos h]
      obtain ⟨e1, e2, e3⟩ := ih (nc.set a _) (np.set a _) (nv.set a _) q hql
      rw [e1, e2, e3, getD_set_ne _ _ _ _ _ (fun he => hqa he.symm),
        getD_set_ne _ _ _ _ _ (fun he => hqa he.symm),
        getD_set_ne _ _ _ _ _ (fun he => hqa he.symm)]
      exact ⟨rfl, rfl, rfl⟩
    · simp only [remapLoop, if_neg h]
      exact ih nc np nv q hql

theorem remapLoop_at (mm : List ℤ) (conf pend : List blob_class_t) (votes : List ℕ) :
    ∀ (n : ℕ) nc np nv (i : ℕ), i < n → i < nc.length → i < np.length → i < nv.length →
      ((remapLoop mm conf pend votes (List.range n) nc np nv).1.getD i blob_class_t.UNKNOWN,
       (remapLoop mm conf pend votes (List.range n) nc np nv).2.1.getD i blob_class_t.UNKNOWN,
       (remapLoop mm conf pend votes (List.range n) nc np nv).2.2.getD i 0) =
      (if (0 : ℤ) ≤ mm.getD i (-1) then
        (conf.getD (mm.getD i (-1)).toNat blob_class_t.UNKNOWN,
         pend.getD (mm.getD i (-1)).toNat blob_class_t.UNKNOWN,
         votes.getD (mm.getD i (-1)).toNat 0)
       else (nc.getD i blob_class_t.UNKNOWN, np.getD i blob_class_t.UNKNOWN, nv.getD i 0)) := by
  intro n
  induction n with
  | zero => intro nc np nv i hi; omega
  | succ m ih =>
    intro nc np nv i hi hc hp hv
    rw [List.range_succ, remapLoop_append]
    rcases Nat.lt_or_ge i m with him | him
    · -- handled inside the range-m prefix; the final index-m step does not disturb i
      have hne : i ≠ m := by omega
      obtain ⟨l1, l2, l3⟩ := remapLoop_lengths mm conf pend votes (List.range m) nc np nv
      have hstep := ih nc np nv i him hc hp hv
      by_cases h : (0 : ℤ) ≤ mm.getD m (-1)
      · simp only [remapLoop, if_pos h]
        rw [getD_set_ne _ _ _ _ _ (fun he => hne he.symm),
          getD_set_ne _ _ _ _ _ (fun he => hne he.symm),
          getD_set_ne _ _ _ _ _ (fun he => hne he.symm)]
        exact hstep
      · simp only [remapLoop, if_neg h]
        exact hstep
    · have hieq : i = m := by omega
      subst hieq
      obtain ⟨l1, l2, l3⟩ := remapLoop_lengths mm conf pend votes (List.range i) nc np nv
      obtain ⟨u1, u2, u3⟩ := remapLoop_untouched mm conf pend votes (List.range i) nc np nv i
        (by simp)
      by_cases h : (0 : ℤ) ≤ mm.getD i (-1)
      · simp only [remapLoop, if_pos h, if_pos h]
        rw [getD_set_self _ _ _ _ (by omega), getD_set_self _ _ _ _ (by omega),
          getD_set_self _ _ _ _ (by omega)]
      · simp only [remapLoop, if_neg h, if_neg h]
        rw [u1, u2, u3]

theorem storeLoop_append (blobs : List blob_t) :
    ∀ (l1 l2 : List ℕ) cxs cys,
      storeLoop blobs (l1 ++ l2) cxs cys =
        storeLoop blobs l2 (storeLoop blobs l1 cxs cys).1 (storeLoop blobs l1 cxs cys).2 := by
  intro l1
  induction l1 with
  | nil => intro l2 cxs cys; rfl
  | cons a l ih =>
    intro l2 cxs cys
    simp only [List.cons_append, storeLoop]
    exact ih l2 _ _

theorem storeLoop_lengths (blobs : List blob_t) :
    ∀ (is : List ℕ) cxs cys,
      (storeLoop blobs is cxs cys).1.length = cxs.length ∧
      (storeLoop blobs is cxs cys).2.length = cys.length := by
  intro is
  induction is with
  | nil => intro cxs cys; exact ⟨rfl, rfl⟩
  | cons a l ih =>
    intro cxs cys
    simp only [storeLoop]
    obtain ⟨e1, e2⟩ := ih (cxs.set a _) (cys.set a _)
    rw [e1, e2]
    simp [List.length_set]

theorem storeLoop_untouched (blobs : List blob_t) :
    ∀ (is : List ℕ) cxs cys (q : ℕ), q ∉ is →
      (storeLoop blobs is cxs cys).1.getD q 0 = cxs.getD q 0 ∧
      (storeLoop blobs is cxs cys).2.getD q 0 = cys.getD q 0 := by
  intro is
  induction is with
  | nil => intro cxs cys q _; exact ⟨rfl, rfl⟩
  | cons a l ih =>
    intro cxs cys q hq
    have hqa : q ≠ a := fun he => hq (by simp [he])
    have hql : q ∉ l := fun he => hq (by simp [he])
    simp only [storeLoop]
    obtain ⟨e1, e2⟩ := ih (cxs.set a _) (cys.set a _) q hql
    rw [e1, e2, getD_set_ne _ _ _ _ _ (fun he => hqa he.symm),
      getD_set_ne _ _ _ _ _ (fun he => hqa he.symm)]
    exact ⟨rfl, rfl⟩

theorem storeLoop_at (blobs : List blob_t) :
    ∀ (n : ℕ) cxs cys (i : ℕ), i < n → i < cxs.length → i < cys.length →
      (storeLoop blobs (List.range n) cxs cys).1.getD i 0 = (blobs.getD i zeroBlob).cx ∧
      (storeLoop blobs (List.range n) cxs cys).2.getD i 0 = (blobs.getD i zeroBlob).cy := by
  intro n
  induction n with
  | zero => intro cxs cys i hi; omega
  | succ m ih =>
    intro cxs cys i hi hc hp
    rw [List.range_succ, storeLoop_append]
    rcases Nat.lt_or_ge i m with him | him
    · have hne : i ≠ m := by omega
      obtain ⟨l1, l2⟩ := storeLoop_lengths blobs (List.range m) cxs cys
      have hstep := ih cxs cys i him hc hp
      simp only [storeLoop]
      rw [getD_set_ne _ _ _ _ _ (fun he => hne he.symm),
        getD_set_ne _ _ _ _ _ (fun he => hne he.symm)]
      exact hstep
    · have hieq : i = m := by omega
      subst hieq
      obtain ⟨l1, l2⟩ := storeLoop_lengths blobs (List.range i) cxs cys
      simp only [storeLoop]
      rw [getD_set_self _ _ _ _ (by omega), getD_set_self _ _ _ _ (by omega)]
      exact ⟨rfl, rfl⟩

/-- C3: for a blob the loop matched to previous-frame slot `j`, the
reported classification is exactly the slot's (just-updated) confirmed
value; the slot's pending candidate becomes the raw classification
derived from this identity's motion; the agreement counter increments
(capped) only when that raw classification agrees with the pending
candidate and restarts at 1 otherwise; and the confirmed value is
rewritten only when the updated counter has reached
TRACKER_CONFIRM_FRAMES — never before. -/
theorem tracker_confirmed_gate (state : tracker_state_t) (blobs : List blob_t)
    (hcnt : state.count ≤ MAX_BLOBS)
    (hlc : state.confirmed_class.length = MAX_BLOBS)
    (hlp : state.pending_class.length = MAX_BLOBS)
    (hlv : state.vote_count.length = MAX_BLOBS)
    (i j : ℕ) (hi : i < blobs.length)
    (hm : (trackPass state blobs).match_map.getD i (-1) = ((j : ℕ) : ℤ)) :
    j < state.count ∧
    ((trackPass state blobs).blobs.getD i zeroBlob).classification =
      (trackPass state blobs).confirmed_class.getD j blob_class_t.UNKNOWN ∧
    (trackPass state blobs).pending_class.getD j blob_class_t.UNKNOWN =
      rawClassAt state (blobs.getD i zeroBlob) j ∧
    (trackPass state blobs).vote_count.getD j 0 =
      voteUpdate state j (rawClassAt state (blobs.getD i zeroBlob) j) ∧
    (trackPass state blobs).confirmed_class.getD j blob_class_t.UNKNOWN =
      (if TRACKER_CONFIRM_FRAMES ≤ voteUpdate state j (rawClassAt state (blobs.getD i zeroBlob) j)
       then rawClassAt state (blobs.getD i zeroBlob) j
       else state.confirmed_class.getD j blob_class_t.UNKNOWN) := by
  have h0 : (([] : List blob_t)).length + i = i := by simp
  have hspec := trackLoop_matched_spec state blobs (List.replicate MAX_BLOBS false) [] []
    state.confirmed_class state.pending_class state.vote_count
    (by omega) (by omega) (by omega) (by simpa using hcnt) rfl
    (fun _ _ => ⟨rfl, rfl, rfl⟩) i j hi (by rw [h0]; exact hm)
  rw [h0] at hspec
  obtain ⟨g1, g2, g3, g4, g5⟩ := hspec
  exact ⟨g1, g5, g2, g3, g4⟩

/-- Witness for C3: a blob 3 px from its tracked identity gets vote
count 1 on the first agreeing frame. -/
theorem tracker_confirmed_gate_witness :
    0 < witnessTrackState.count ∧
    (trackPass witnessTrackState witnessTrackBlobs).vote_count.getD 0 0 = 1 := by
  have h := tracker_confirmed_gate witnessTrackState witnessTrackBlobs
    (by decide) (by decide) (by decide) (by decide) 0 0 (by decide) (by decide)
  exact ⟨h.1, by rw [h.2.2.2.1]; decide⟩

/-- C4: after `tracker_classify`, slot `i` of the new state holds the
current frame's blob-i centroid, and its hysteresis triple (confirmed,
pending, votes) equals the post-voting triple of the previous-frame slot
that blob i matched — or the all-zero fresh triple when blob i was
unmatched: hysteresis state follows the match, not the array index. -/
theorem tracker_state_follows_match (state : tracker_state_t) (blobs : List blob_t)
    (h16 : blobs.length ≤ MAX_BLOBS)
    (hlcx : state.cx.length = MAX_BLOBS) (hlcy : state.cy.length = MAX_BLOBS)
    (i : ℕ) (hi : i < blobs.length) :
    (tracker_classify state blobs).2.cx.getD i 0 = (blobs.getD i zeroBlob).cx ∧
    (tracker_classify state blobs).2.cy.getD i 0 = (blobs.getD i zeroBlob).cy ∧
    (∀ j : ℕ, (trackPass state blobs).match_map.getD i (-1) = ((j : ℕ) : ℤ) →
      (tracker_classify state blobs).2.confirmed_class.getD i blob_class_t.UNKNOWN =
        (trackPass state blobs).confirmed_class.getD j blob_class_t.UNKNOWN ∧
      (tracker_classify state blobs).2.pending_class.getD i blob_class_t.UNKNOWN =
        (trackPass state blobs).pending_class.getD j blob_class_t.UNKNOWN ∧
      (tracker_classify state blobs).2.vote_count.getD i 0 =
        (trackPass state blobs).vote_count.getD j 0) ∧
    ((trackPass state blobs).match_map.getD i (-1) < 0 →
      (tracker_classify state blobs).2.confirmed_class.getD i blob_class_t.UNKNOWN =
        blob_class_t.UNKNOWN ∧
      (tracker_classify state blobs).2.pending_class.getD i blob_class_t.UNKNOWN =
        blob_class_t.UNKNOWN ∧
      (tracker_classify state blobs).2.vote_count.getD i 0 = 0) := by
  have hAlen : (trackPass state blobs).blobs.length = blobs.length := by
    have := (trackLoop_lengths state blobs (List.replicate MAX_BLOBS false) [] []
      state.confirmed_class state.pending_class state.vote_count).1
    simpa [trackPass] using this
  have hnz : ¬ (trackPass state blobs).blobs.length = 0 := by omega
  have hcent := trackLoop_blobs_centroid state blobs (List.replicate MAX_BLOBS false) [] []
    state.confirmed_class state.pending_class state.vote_count i hi
  have h0 : (([] : List blob_t)).length + i = i := by simp
  rw [h0] at hcent
  have hstore := storeLoop_at (trackPass state blobs).blobs
    ((trackPass state blobs).blobs.length) state.cx state.cy i (by omega) (by omega) (by omega)
  have hremap := remapLoop_at (trackPass state blobs).match_map
    (trackPass state blobs).confirmed_class (trackPass state blobs).pending_class
    (trackPass state blobs).vote_count ((trackPass state blobs).blobs.length)
    (List.replicate MAX_BLOBS blob_class_t.UNKNOWN)
    (List.replicate MAX_BLOBS blob_class_t.UNKNOWN) (List.replicate MAX_BLOBS 0) i
    (by omega) (by simpa using lt_of_lt_of_le hi h16)
    (by simpa using lt_of_lt_of_le hi h16) (by simpa using lt_of_lt_of_le hi h16)
  simp only [tracker_classify, if_neg hnz]
  refine ⟨?_, ?_, ?_, ?_⟩
  · rw [hstore.1]
    exact (hcent.1 : _)
  · rw [hstore.2]
    exact (hcent.2 : _)
  · intro j hj
    rw [hj] at hremap
    have hpos : (0 : ℤ) ≤ ((j : ℕ) : ℤ) := Int.ofNat_nonneg j
    rw [if_pos hpos, Int.toNat_natCast] at hremap
    have e1 := congrArg Prod.fst hremap
    have e23 := congrArg Prod.snd hremap
    have e2 := congrArg Prod.fst e23
    have e3 := congrArg Prod.snd e23
    exact ⟨e1, e2, e3⟩
  · intro hneg
    rw [if_neg (by omega)] at hremap
    have hrep1 : (List.replicate MAX_BLOBS blob_class_t.UNKNOWN).getD i blob_class_t.UNKNOWN =
        blob_class_t.UNKNOWN := by
      rw [List.getD_eq_getElem?_getD, List.getElem?_replicate]
      split <;> rfl
    have hrep2 : (List.replicate MAX_BLOBS (0 : ℕ)).getD i 0 = 0 := by
      rw [List.getD_eq_getElem?_getD, List.getElem?_replicate]
      split <;> rfl
    rw [hrep1, hrep2] at hremap
    have e1 := congrArg Prod.fst hremap
    have e23 := congrArg Prod.snd hremap
    have e2 := congrArg Prod.fst e23
    have e3 := congrArg Prod.snd e23
    exact ⟨e1, e2, e3⟩

/-- Witness for C4 at a concrete one-blob frame. -/
theorem tracker_state_follows_match_witness :
    (tracker_classify witnessTrackState witnessTrackBlobs).2.cx.getD 0 0 =
      (witnessTrackBlobs.getD 0 zeroBlob).cx := by
  have h := tracker_state_follows_match witnessTrackState witnessTrackBlobs
    (by decide) (by decide) (by decide) 0 (by decide)
  exact h.1

/-- Pixel value of the strip frame at coordinates (x, ry). -/
theorem pixTallStrips_at (ry x : ℕ) (hx : x < 7) :
    pixTallStrips (ry * 7 + x) = if 3 ≤ ry ∧ ry ≤ 11669 ∧ x ≠ 3 then 255 else 0 := by
  have h1 : (ry * 7 + x) / 7 = ry := by omega
  have h2 : (ry * 7 + x) % 7 = x := by omega
  simp only [pixTallStrips, h1, h2]

set_option maxHeartbeats 1600000 in
/-- Pass 1 over one interior row of the strip frame: the row labels are
the steady pattern, no unions fire, the scene sum gains 6 * 255. -/
theorem pass1Row_steady (parent : List ℕ) (ry s : ℕ) (h3 : 3 ≤ ry) (h9 : ry ≤ 11669)
    (hs : s + 1530 < 18446744073709551616) :
    pass1Row pixTallStrips 7 0 ry [0, 1, 2, 3, 4, 5, 6] sRow7 [] parent 3 s =
      (sRow7, parent, 3, s + 1530) := by
  have p0 : pixTallStrips (ry * 7) = 255 := by
    have := pixTallStrips_at ry 0 (by norm_num)
    rw [if_pos (by omega : 3 ≤ ry ∧ ry ≤ 11669 ∧ (0:ℕ) ≠ 3)] at this
    simpa using this
  have p1 : pixTallStrips (ry * 7 + 1) = 255 := by
    have := pixTallStrips_at ry 1 (by norm_num)
    rw [if_pos (by omega : 3 ≤ ry ∧ ry ≤ 11669 ∧ (1:ℕ) ≠ 3)] at this
    exact this
  have p2 : pixTallStrips (ry * 7 + 2) = 255 := by
    have := pixTallStrips_at ry 2 (by norm_num)
    rw [if_pos (by omega : 3 ≤ ry ∧ ry ≤ 11669 ∧ (2:ℕ) ≠ 3)] at this
    exact this
  have p3 : pixTallStrips (ry * 7 + 3) = 0 := by
    have := pixTallStrips_at ry 3 (by norm_num)
    rw [if_neg (by omega : ¬(3 ≤ ry ∧ ry ≤ 11669 ∧ (3:ℕ) ≠ 3))] at this
    exact this
  have p4 : pixTallStrips (ry * 7 + 4) = 255 := by
    have := pixTallStrips_at ry 4 (by norm_num)
    rw [if_pos (by omega : 3 ≤ ry ∧ ry ≤ 11669 ∧ (4:ℕ) ≠ 3)] at this
    exact this
  have p5 : pixTallStrips (ry * 7 + 5) = 255 := by
    have := pixTallStrips_at ry 5 (by norm_num)
    rw [if_pos (by omega : 3 ≤ ry ∧ ry ≤ 11669 ∧ (5:ℕ) ≠ 3)] at this
    exact this
  have p6 : pixTallStrips (ry * 7 + 6) = 255 := by
    have := pixTallStrips_at ry 6 (by norm_num)
    rw [if_pos (by omega : 3 ≤ ry ∧ ry ≤ 11669 ∧ (6:ℕ) ≠ 3)] at this
    exact this
  have hry : 0 < ry := by omega
  have hryne : ¬ ry = 0 := by omega
  have q0 : ∀ t : ℕ, pass1Pixel pixTallStrips 7 0 ry 0 sRow7 [] parent 3 t =
      (1, parent, 3, u64 (t + 255)) := by
    intro t
    norm_num [pass1Pixel, p0, minNeighborLabel, unionNeighbors, sRow7,
      BRIGHTNESS_THRESHOLD, MAX_LABELS, hry, hryne]
  have q1 : ∀ t : ℕ, pass1Pixel pixTallStrips 7 0 ry 1 sRow7 [1] parent 3 t =
      (1, parent, 3, u64 (t + 255)) := by
    intro t
    norm_num [pass1Pixel, p1, minNeighborLabel, unionNeighbors, sRow7,
      BRIGHTNESS_THRESHOLD, MAX_LABELS, hry, hryne]
  have q2 : ∀ t : ℕ, pass1Pixel pixTallStrips 7 0 ry 2 sRow7 [1, 1] parent 3 t =
      (1, parent, 3, u64 (t + 255)) := by
    intro t
    norm_num [pass1Pixel, p2, minNeighborLabel, unionNeighbors, sRow7,
      BRIGHTNESS_THRESHOLD, MAX_LABELS, hry, hryne]
  have q3 : ∀ t : ℕ, pass1Pixel pixTallStrips 7 0 ry 3 sRow7 [1, 1, 1] parent 3 t =
      (0, parent, 3, u64 t) := by
    intro t
    norm_num [pass1Pixel, p3, BRIGHTNESS_THRESHOLD]
  have q4 : ∀ t : ℕ, pass1Pixel pixTallStrips 7 0 ry 4 sRow7 [1, 1, 1, 0] parent 3 t =
      (2, parent, 3, u64 (t + 255)) := by
    intro t
    norm_num [pass1Pixel, p4, minNeighborLabel, unionNeighbors, sRow7,
      BRIGHTNESS_THRESHOLD, MAX_LABELS, hry, hryne]
  have q5 : ∀ t : ℕ, pass1Pixel pixTallStrips 7 0 ry 5 sRow7 [1, 1, 1, 0, 2] parent 3 t =
      (2, parent, 3, u64 (t + 255)) := by
    intro t
    norm_num [pass1Pixel, p5, minNeighborLabel, unionNeighbors, sRow7,
      BRIGHTNESS_THRESHOLD, MAX_LABELS, hry, hryne]
  have q6 : ∀ t : ℕ, pass1Pixel pixTallStrips 7 0 ry 6 sRow7 [1, 1, 1, 0, 2, 2] parent 3 t =
      (2, parent, 3, u64 (t + 255)) := by
    intro t
    norm_num [pass1Pixel, p6, minNeighborLabel, unionNeighbors, sRow7,
      BRIGHTNESS_THRESHOLD, MAX_LABELS, hry, hryne]
  have e1 : u64 (s + 255) = s + 255 := Nat.mod_eq_of_lt (by omega)
  have e2 : u64 (s + 510) = s + 510 := Nat.mod_eq_of_lt (by omega)
  have e3 : u64 (s + 765) = s + 765 := Nat.mod_eq_of_lt (by omega)
  have e4 : u64 (s + 1020) = s + 1020 := Nat.mod_eq_of_lt (by omega)
  have e5 : u64 (s + 1275) = s + 1275 := Nat.mod_eq_of_lt (by omega)
  have e6 : u64 (s + 1530) = s + 1530 := Nat.mod_eq_of_lt (by omega)
  norm_num [pass1Row, q0, q1, q2, q3, q4, q5, q6, e1, e2, e3, e4, e5, e6]
  rfl

/-- Pass 1 over one all-dark row below the strips. -/
theorem pass1Row_dark (prev parent : List ℕ) (ry nl s : ℕ) (h : 11670 ≤ ry)
    (hs : s < 18446744073709551616) :
    pass1Row pixTallStrips 7 0 ry [0, 1, 2, 3, 4, 5, 6] prev [] parent nl s =
      (z7, parent, nl, s) := by
  have qd : ∀ (x : ℕ) (cur : List ℕ) (t : ℕ), x < 7 →
      pass1Pixel pixTallStrips 7 0 ry x prev cur parent nl t = (0, parent, nl, u64 t) := by
    intro x cur t hx
    have px : pixTallStrips (ry * 7 + x) = 0 := by
      have := pixTallStrips_at ry x hx
      rw [if_neg (by omega : ¬(3 ≤ ry ∧ ry ≤ 11669 ∧ x ≠ 3))] at this
      exact this
    norm_num [pass1Pixel, px, BRIGHTNESS_THRESHOLD]
  have e0 : u64 s = s := Nat.mod_eq_of_lt hs
  norm_num [pass1Row, qd, e0]
  rfl

/-- The pass-1 outer loop splits over list append. -/
theorem pass1Go_append (pixels : ℕ → ℕ) (width y_start : ℕ) (l1 l2 : List ℕ)
    (st : pass1_go_state) :
    pass1Go pixels width y_start (l1 ++ l2) st =
      pass1Go pixels width y_start l2 (pass1Go pixels width y_start l1 st) := by
  induction l1 generalizing st with
  | nil => rfl
  | cons a t ih => simp only [List.cons_append, pass1Go]; exact ih _

/-- Pass 1 over a block of interior strip rows. -/
theorem pass1Go_steady (parent : List ℕ) (k : ℕ) : ∀ (ry s : ℕ), 3 ≤ ry → ry + k ≤ 11670 →
    s + 1530 * k < 18446744073709551616 →
    ∀ (R : List (List ℕ)),
    pass1Go pixTallStrips 7 0 (List.range' ry k) ⟨sRow7, R, parent, 3, s⟩ =
      ⟨sRow7, List.replicate k sRow7 ++ R, parent, 3, s + 1530 * k⟩ := by
  induction k with
  | zero => intro ry s _ _ _ R; simp [pass1Go]
  | succ k ih =>
    intro ry s h3 hk hs R
    rw [List.range'_succ]
    have hrow := pass1Row_steady parent ry s (by omega) (by omega) (by omega)
    have hstep : pass1Step pixTallStrips 7 0 ry ⟨sRow7, R, parent, 3, s⟩ =
        ⟨sRow7, sRow7 :: R, parent, 3, s + 1530⟩ := by
      simp only [pass1Step, show (List.range 7) = [0, 1, 2, 3, 4, 5, 6] from rfl, hrow]
    simp only [pass1Go]
    rw [hstep, ih (ry + 1) (s + 1530) (by omega) (by omega) (by omega) (sRow7 :: R)]
    have hlist : List.replicate k sRow7 ++ (sRow7 :: R) =
        List.replicate (k + 1) sRow7 ++ R := by
      simp [List.replicate_succ', List.append_assoc]
    have harith : s + 1530 + 1530 * k = s + 1530 * (k + 1) := by ring
    rw [hlist, harith]

set_option maxRecDepth 40000 in
/-- Pass 1 over the first four rows of the strip frame, computed
concretely. -/
theorem pass1_prefix :
    pass1Go pixTallStrips 7 0 [0, 1, 2, 3] (pass1Start (List.range 512)) =
      ⟨sRow7, [sRow7, z7, z7, z7], List.range 512, 3, 1530⟩ := by
  rfl

/-- Pass 1 over the four dark tail rows of the strip frame. -/
theorem pass1Go_dark4 (parent : List ℕ) (R : List (List ℕ)) (nl s : ℕ)
    (hs : s < 18446744073709551616) :
    pass1Go pixTallStrips 7 0 [11670, 11671, 11672, 11673] ⟨sRow7, R, parent, nl, s⟩ =
      ⟨z7, z7 :: z7 :: z7 :: z7 :: R, parent, nl, s⟩ := by
  have step : ∀ (prev : List ℕ) (R' : List (List ℕ)) (ry : ℕ), 11670 ≤ ry →
      pass1Step pixTallStrips 7 0 ry ⟨prev, R', parent, nl, s⟩ = ⟨z7, z7 :: R', parent, nl, s⟩ := by
    intro prev R' ry h
    simp only [pass1Step, show (List.range 7) = [0, 1, 2, 3, 4, 5, 6] from rfl,
      pass1Row_dark prev parent ry nl s h hs]
  simp only [pass1Go]
  rw [step sRow7 R 11670 (by norm_num), step z7 (z7 :: R) 11671 (by norm_num),
    step z7 (z7 :: z7 :: R) 11672 (by norm_num),
    step z7 (z7 :: z7 :: z7 :: R) 11673 (by norm_num)]

/-- Pass 1 over the whole 7 x 11674 strip frame. -/
theorem pass1_full :
    pass1Go pixTallStrips 7 0 (List.range 11674) (pass1Start (List.range 512)) =
      ⟨z7, z7 :: z7 :: z7 :: z7 ::
          (List.replicate 11666 sRow7 ++ [sRow7, z7, z7, z7]),
        List.range 512, 3, 17850510⟩ := by
  have hsplit : List.range 11674 =
      [0, 1, 2, 3] ++ (List.range' 4 11666 ++ [11670, 11671, 11672, 11673]) := by
    rw [List.range_eq_range',
      show ([0, 1, 2, 3] : List ℕ) = List.range' 0 4 from rfl,
      show ([11670, 11671, 11672, 11673] : List ℕ) = List.range' 11670 4 from rfl,
      List.range'_append, List.range'_append]
  rw [hsplit, pass1Go_append, pass1Go_append, pass1_prefix,
    pass1Go_steady (List.range 512) 11666 4 1530 (by norm_num) (by norm_num) (by norm_num)
      [sRow7, z7, z7, z7]]
  have : (1530 + 1530 * 11666 : ℕ) = 17850510 := by norm_num
  rw [this, pass1Go_dark4 (List.range 512) _ 3 17850510 (by norm_num)]

set_option maxRecDepth 40000 in
/-- Label 1 is its own root in the freshly initialised parent array. -/
theorem uf_find_range512_1 : uf_find (List.range 512) 1 = (1, List.range 512) := by rfl

set_option maxRecDepth 40000 in
/-- Label 2 is its own root in the freshly initialised parent array. -/
theorem uf_find_range512_2 : uf_find (List.range 512) 2 = (2, List.range 512) := by rfl

/-- Pass 2 skips an all-background label row. -/
theorem pass2Row_zero (pixels : ℕ → ℕ) (fy x : ℕ) (accs : List label_acc_t)
    (parent : List ℕ) :
    pass2Row pixels 7 fy z7 x accs parent = (accs, parent) := by
  simp [pass2Row, pass2Pixel, z7]

/-- Pass 2 over a block of all-background label rows changes nothing. -/
theorem pass2Go_zeros (pixels : ℕ → ℕ) (y_start k : ℕ) : ∀ (ry : ℕ)
    (st : List label_acc_t × List ℕ),
    pass2Go pixels 7 y_start (List.replicate k z7) ry st = st := by
  induction k with
  | zero => intro ry st; rfl
  | succ k ih =>
    intro ry st
    simp only [List.replicate_succ, pass2Go, pass2Row_zero]
    exact ih _ _

/-- The pass-2 outer loop splits over list append, advancing the row
counter by the length of the first block. -/
theorem pass2Go_append (pixels : ℕ → ℕ) (w y_start : ℕ) (l1 l2 : List (List ℕ)) :
    ∀ (ry : ℕ) (st : List label_acc_t × List ℕ),
    pass2Go pixels w y_start (l1 ++ l2) ry st =
      pass2Go pixels w y_start l2 (ry + l1.length) (pass2Go pixels w y_start l1 ry st) := by
  induction l1 with
  | nil => intro ry st; simp [pass2Go]
  | cons r t ih =>
    intro ry st
    simp only [List.cons_append, pass2Go, List.length_cons, List.append_eq]
    rw [ih]
    congr 1
    omega

set_option maxRecDepth 40000 in
set_option maxHeartbeats 1600000 in
/-- Pass 2 over one steady strip row: labels 1 and 2 each gain three
pixels with their column sums, row sums and brightness. -/
theorem pass2Row_steady (fy sx1 sy1 pc1 bs1 sx2 sy2 pc2 bs2 : ℕ) (a0 : label_acc_t)
    (h3 : 3 ≤ fy) (h9 : fy ≤ 11669)
    (hx1 : sx1 + 3 < 4294967296) (hy1 : sy1 + 3 * fy < 4294967296)
    (hp1 : pc1 + 3 < 4294967296) (hb1 : bs1 + 765 < 4294967296)
    (hx2 : sx2 + 15 < 4294967296) (hy2 : sy2 + 3 * fy < 4294967296)
    (hp2 : pc2 + 3 < 4294967296) (hb2 : bs2 + 765 < 4294967296) :
    pass2Row pixTallStrips 7 fy sRow7 0
        [a0, ⟨sx1, sy1, pc1, bs1⟩, ⟨sx2, sy2, pc2, bs2⟩] (List.range 512) =
      ([a0, ⟨sx1 + 3, sy1 + 3 * fy, pc1 + 3, bs1 + 765⟩,
            ⟨sx2 + 15, sy2 + 3 * fy, pc2 + 3, bs2 + 765⟩], List.range 512) := by
  have p0 : pixTallStrips (fy * 7) = 255 := by
    have := pixTallStrips_at fy 0 (by norm_num)
    rw [if_pos (by omega : 3 ≤ fy ∧ fy ≤ 11669 ∧ (0:ℕ) ≠ 3)] at this
    simpa using this
  have p1 : pixTallStrips (fy * 7 + 1) = 255 := by
    have := pixTallStrips_at fy 1 (by norm_num)
    rw [if_pos (by omega : 3 ≤ fy ∧ fy ≤ 11669 ∧ (1:ℕ) ≠ 3)] at this
    exact this
  have p2 : pixTallStrips (fy * 7 + 2) = 255 := by
    have := pixTallStrips_at fy 2 (by norm_num)
    rw [if_pos (by omega : 3 ≤ fy ∧ fy ≤ 11669 ∧ (2:ℕ) ≠ 3)] at this
    exact this
  have p4 : pixTallStrips (fy * 7 + 4) = 255 := by
    have := pixTallStrips_at fy 4 (by norm_num)
    rw [if_pos (by omega : 3 ≤ fy ∧ fy ≤ 11669 ∧ (4:ℕ) ≠ 3)] at this
    exact this
  have p5 : pixTallStrips (fy * 7 + 5) = 255 := by
    have := pixTallStrips_at fy 5 (by norm_num)
    rw [if_pos (by omega : 3 ≤ fy ∧ fy ≤ 11669 ∧ (5:ℕ) ≠ 3)] at this
    exact this
  have p6 : pixTallStrips (fy * 7 + 6) = 255 := by
    have := pixTallStrips_at fy 6 (by norm_num)
    rw [if_pos (by omega : 3 ≤ fy ∧ fy ≤ 11669 ∧ (6:ℕ) ≠ 3)] at this
    exact this
  have f1 : u32 sx1 = sx1 := Nat.mod_eq_of_lt (by omega)
  have f2 : u32 (sx1 + 1) = sx1 + 1 := Nat.mod_eq_of_lt (by omega)
  have f3 : u32 (sx1 + 3) = sx1 + 3 := Nat.mod_eq_of_lt (by omega)
  have g1 : u32 (sy1 + fy) = sy1 + fy := Nat.mod_eq_of_lt (by omega)
  have g2 : u32 (sy1 + fy + fy) = sy1 + fy + fy := Nat.mod_eq_of_lt (by omega)
  have g3 : u32 (sy1 + fy + fy + fy) = sy1 + fy + fy + fy := Nat.mod_eq_of_lt (by omega)
  have c1 : u32 (pc1 + 1) = pc1 + 1 := Nat.mod_eq_of_lt (by omega)
  have c2 : u32 (pc1 + 2) = pc1 + 2 := Nat.mod_eq_of_lt (by omega)
  have c3 : u32 (pc1 + 3) = pc1 + 3 := Nat.mod_eq_of_lt (by omega)
  have b1 : u32 (bs1 + 255) = bs1 + 255 := Nat.mod_eq_of_lt (by omega)
  have b2 : u32 (bs1 + 510) = bs1 + 510 := Nat.mod_eq_of_lt (by omega)
  have b3 : u32 (bs1 + 765) = bs1 + 765 := Nat.mod_eq_of_lt (by omega)
  have f4 : u32 (sx2 + 4) = sx2 + 4 := Nat.mod_eq_of_lt (by omega)
  have f5 : u32 (sx2 + 9) = sx2 + 9 := Nat.mod_eq_of_lt (by omega)
  have f6 : u32 (sx2 + 15) = sx2 + 15 := Nat.mod_eq_of_lt (by omega)
  have g4 : u32 (sy2 + fy) = sy2 + fy := Nat.mod_eq_of_lt (by omega)
  have g5 : u32 (sy2 + fy + fy) = sy2 + fy + fy := Nat.mod_eq_of_lt (by omega)
  have g6 : u32 (sy2 + fy + fy + fy) = sy2 + fy + fy + fy := Nat.mod_eq_of_lt (by omega)
  have c4 : u32 (pc2 + 1) = pc2 + 1 := Nat.mod_eq_of_lt (by omega)
  have c5 : u32 (pc2 + 2) = pc2 + 2 := Nat.mod_eq_of_lt (by omega)
  have c6 : u32 (pc2 + 3) = pc2 + 3 := Nat.mod_eq_of_lt (by omega)
  have b4 : u32 (bs2 + 255) = bs2 + 255 := Nat.mod_eq_of_lt (by omega)
  have b5 : u32 (bs2 + 510) = bs2 + 510 := Nat.mod_eq_of_lt (by omega)
  have b6 : u32 (bs2 + 765) = bs2 + 765 := Nat.mod_eq_of_lt (by omega)
  have hy1' : sy1 + fy + fy + fy = sy1 + 3 * fy := by ring
  have hy2' : sy2 + fy + fy + fy = sy2 + 3 * fy := by ring
  have r0 : pass2Pixel pixTallStrips 7 fy 0 1
      [a0, ⟨sx1, sy1, pc1, bs1⟩, ⟨sx2, sy2, pc2, bs2⟩] (List.range 512) =
      ([a0, ⟨sx1, sy1 + fy, pc1 + 1, bs1 + 255⟩, ⟨sx2, sy2, pc2, bs2⟩], List.range 512) := by
    norm_num [pass2Pixel, p0, uf_find_range512_1, f1, g1, c1, b1]
  have r1 : pass2Pixel pixTallStrips 7 fy 1 1
      [a0, ⟨sx1, sy1 + fy, pc1 + 1, bs1 + 255⟩, ⟨sx2, sy2, pc2, bs2⟩] (List.range 512) =
      ([a0, ⟨sx1 + 1, sy1 + fy + fy, pc1 + 2, bs1 + 510⟩, ⟨sx2, sy2, pc2, bs2⟩],
        List.range 512) := by
    norm_num [pass2Pixel, p1, uf_find_range512_1, f2, g2, c2, b2]
  have r2 : pass2Pixel pixTallStrips 7 fy 2 1
      [a0, ⟨sx1 + 1, sy1 + fy + fy, pc1 + 2, bs1 + 510⟩, ⟨sx2, sy2, pc2, bs2⟩]
      (List.range 512) =
      ([a0, ⟨sx1 + 3, sy1 + fy + fy + fy, pc1 + 3, bs1 + 765⟩, ⟨sx2, sy2, pc2, bs2⟩],
        List.range 512) := by
    norm_num [pass2Pixel, p2, uf_find_range512_1, f3, g3, c3, b3]
  have r3 : ∀ accs : List label_acc_t, pass2Pixel pixTallStrips 7 fy 3 0 accs
      (List.range 512) = (accs, List.range 512) := by
    intro accs
    norm_num [pass2Pixel]
  have r4 : pass2Pixel pixTallStrips 7 fy 4 2
      [a0, ⟨sx1 + 3, sy1 + fy + fy + fy, pc1 + 3, bs1 + 765⟩, ⟨sx2, sy2, pc2, bs2⟩]
      (List.range 512) =
      ([a0, ⟨sx1 + 3, sy1 + fy + fy + fy, pc1 + 3, bs1 + 765⟩,
        ⟨sx2 + 4, sy2 + fy, pc2 + 1, bs2 + 255⟩], List.range 512) := by
    norm_num [pass2Pixel, p4, uf_find_range512_2, f4, g4, c4, b4]
  have r5 : pass2Pixel pixTallStrips 7 fy 5 2
      [a0, ⟨sx1 + 3, sy1 + fy + fy + fy, pc1 + 3, bs1 + 765⟩,
        ⟨sx2 + 4, sy2 + fy, pc2 + 1, bs2 + 255⟩] (List.range 512) =
      ([a0, ⟨sx1 + 3, sy1 + fy + fy + fy, pc1 + 3, bs1 + 765⟩,
        ⟨sx2 + 9, sy2 + fy + fy, pc2 + 2, bs2 + 510⟩], List.range 512) := by
    norm_num [pass2Pixel, p5, uf_find_range512_2, f5, g5, c5, b5]
  have r6 : pass2Pixel pixTallStrips 7 fy 6 2
      [a0, ⟨sx1 + 3, sy1 + fy + fy + fy, pc1 + 3, bs1 + 765⟩,
        ⟨sx2 + 9, sy2 + fy + fy, pc2 + 2, bs2 + 510⟩] (List.range 512) =
      ([a0, ⟨sx1 + 3, sy1 + fy + fy + fy, pc1 + 3, bs1 + 765⟩,
        ⟨sx2 + 15, sy2 + fy + fy + fy, pc2 + 3, bs2 + 765⟩], List.range 512) := by
    norm_num [pass2Pixel, p6, uf_find_range512_2, f6, g6, c6, b6]
  norm_num [pass2Row, sRow7, r0, r1, r2, r3, r4, r5, r6]
  rw [hy1', hy2']
  exact ⟨rfl, rfl⟩

/-- Step identity for the triangular number k * (k - 1) / 2. -/
theorem tri_step (k : ℕ) : (k + 1) * k / 2 = k * (k - 1) / 2 + k := by
  cases k with
  | zero => rfl
  | succ n =>
    obtain ⟨m, hm⟩ := Nat.even_mul_succ_self n
    obtain ⟨r, hr⟩ := Nat.even_mul_succ_self (n + 1)
    have h1 : (n + 1 + 1) * (n + 1) = (n + 1) * (n + 2) := by ring
    have h2 : (n + 1) * (n + 1 - 1) = n * (n + 1) := by
      simp only [Nat.add_sub_cancel]
      ring
    have h3 : (n + 1) * (n + 2) = n * (n + 1) + 2 * (n + 1) := by ring
    rw [hm, hr] at h3
    rw [h1, h2, hm, hr]
    omega

/-- Gauss closed form for the sum of a contiguous integer range. -/
theorem range'_sum (k : ℕ) : ∀ ry : ℕ, (List.range' ry k).sum = k * ry + k * (k - 1) / 2 := by
  induction k with
  | zero => intro ry; simp
  | succ k ih =>
    intro ry
    rw [List.range'_succ, List.sum_cons, ih (ry + 1)]
    have h1 : k * (ry + 1) = k * ry + k := by ring
    have h2 := tri_step k
    have h3 : (k + 1) * ry = k * ry + ry := by ring
    have h4 : (k + 1) * (k + 1 - 1) = (k + 1) * k := by simp
    rw [h1, h3, h4, h2]
    generalize k * ry = A
    generalize k * (k - 1) / 2 = B
    omega

/-- Pass 2 over a block of steady strip rows starting at row ry. -/
theorem pass2Go_steady (k : ℕ) : ∀ (ry sx1 sy1 pc1 bs1 sx2 sy2 pc2 bs2 : ℕ)
    (a0 : label_acc_t), 3 ≤ ry → ry + k ≤ 11670 →
    sx1 + 3 * k < 4294967296 → sy1 + 3 * (11670 * k) < 4294967296 →
    pc1 + 3 * k < 4294967296 → bs1 + 765 * k < 4294967296 →
    sx2 + 15 * k < 4294967296 → sy2 + 3 * (11670 * k) < 4294967296 →
    pc2 + 3 * k < 4294967296 → bs2 + 765 * k < 4294967296 →
    pass2Go pixTallStrips 7 0 (List.replicate k sRow7) ry
        ([a0, ⟨sx1, sy1, pc1, bs1⟩, ⟨sx2, sy2, pc2, bs2⟩], List.range 512) =
      ([a0, ⟨sx1 + 3 * k, sy1 + 3 * (List.range' ry k).sum, pc1 + 3 * k, bs1 + 765 * k⟩,
            ⟨sx2 + 15 * k, sy2 + 3 * (List.range' ry k).sum, pc2 + 3 * k, bs2 + 765 * k⟩],
        List.range 512) := by
  induction k with
  | zero =>
    intro ry sx1 sy1 pc1 bs1 sx2 sy2 pc2 bs2 a0 _ _ _ _ _ _ _ _ _ _
    norm_num [pass2Go]
  | succ k ih =>
    intro ry sx1 sy1 pc1 bs1 sx2 sy2 pc2 bs2 a0 h3 hk e1 e2 e3 e4 e5 e6 e7 e8
    simp only [List.replicate_succ, pass2Go, Nat.add_zero]
    rw [pass2Row_steady ry sx1 sy1 pc1 bs1 sx2 sy2 pc2 bs2 a0 h3 (by omega)
        (by omega) (by omega) (by omega) (by omega) (by omega) (by omega) (by omega) (by omega),
      ih (ry + 1) (sx1 + 3) (sy1 + 3 * ry) (pc1 + 3) (bs1 + 765)
        (sx2 + 15) (sy2 + 3 * ry) (pc2 + 3) (bs2 + 765) a0 (by omega) (by omega)
        (by omega) (by omega) (by omega) (by omega) (by omega) (by omega) (by omega) (by omega)]
    have hsum : (List.range' ry (k + 1)).sum = ry + (List.range' (ry + 1) k).sum := by
      rw [List.range'_succ, List.sum_cons]
    rw [hsum]
    simp only [Prod.mk.injEq, List.cons.injEq, label_acc_t.mk.injEq, and_true, true_and]
    generalize (List.range' (ry + 1) k).sum = S
    and_intros <;> first | rfl | ring

/-- The stored label rows of the strip frame, in forward order. -/
theorem rowsRev_reverse :
    (z7 :: z7 :: z7 :: z7 :: (List.replicate 11666 sRow7 ++ [sRow7, z7, z7, z7])).reverse =
      List.replicate 3 z7 ++ (List.replicate 11667 sRow7 ++ List.replicate 4 z7) := by
  rw [show (z7 :: z7 :: z7 :: z7 :: (List.replicate 11666 sRow7 ++ [sRow7, z7, z7, z7])) =
      [z7, z7, z7, z7] ++ (List.replicate 11666 sRow7 ++ [sRow7, z7, z7, z7]) from rfl,
    List.reverse_append, List.reverse_append, List.reverse_replicate,
    show ([z7, z7, z7, z7] : List (List ℕ)).reverse = [z7, z7, z7, z7] from rfl,
    show ([sRow7, z7, z7, z7] : List (List ℕ)).reverse = [z7, z7, z7, sRow7] from rfl,
    show (List.replicate 3 z7 : List (List ℕ)) = [z7, z7, z7] from rfl,
    show (List.replicate 4 z7 : List (List ℕ)) = [z7, z7, z7, z7] from rfl,
    show (11667 : ℕ) = 11666 + 1 by norm_num,
    show (List.replicate (11666 + 1) sRow7 : List (List ℕ)) =
      sRow7 :: List.replicate 11666 sRow7 from rfl]
  generalize List.replicate 11666 sRow7 = R
  simp only [List.cons_append, List.append_assoc, List.singleton_append, List.nil_append]

/-- Pass 2 over the whole strip frame: label 1 accumulates 35001 pixels
of column sum 35001, label 2 the same pixel count at column sum 175005,
both with row sum 204265836 and brightness 8925255. -/
theorem pass2_full :
    pass2Go pixTallStrips 7 0
        (List.replicate 3 z7 ++ (List.replicate 11667 sRow7 ++ List.replicate 4 z7)) 0
        (List.replicate 3 zeroAcc, List.range 512) =
      ([zeroAcc, ⟨35001, 204265836, 35001, 8925255⟩, ⟨175005, 204265836, 35001, 8925255⟩],
        List.range 512) := by
  rw [pass2Go_append, pass2Go_zeros, pass2Go_append]
  rw [show ((List.replicate 3 zeroAcc : List label_acc_t), List.range 512) =
    ([zeroAcc, ⟨0, 0, 0, 0⟩, ⟨0, 0, 0, 0⟩], List.range 512) from rfl]
  rw [show (0 + (List.replicate 3 z7).length : ℕ) = 3 from rfl]
  rw [pass2Go_steady 11667 3 0 0 0 0 0 0 0 0 zeroAcc (by norm_num) (by norm_num)
    (by norm_num) (by norm_num) (by norm_num) (by norm_num) (by norm_num) (by norm_num)
    (by norm_num) (by norm_num)]
  rw [range'_sum 11667 3]
  norm_num
  rw [pass2Go_zeros]

set_option maxRecDepth 40000 in
/-- C1 counterexample: on a 7 x 11674 frame holding two 3-wide bright
strips of 35001 pixels each (centroids (1, 5836) and (5, 5836), Manhattan
distance 4), detect_blobs merges them and reports a single blob of 70002
pixels — exceeding MAX_BLOB_PIXELS = 70000, so the upper bound of the
claimed [min, max] invariant does not survive the merge pass. -/
theorem detect_blobs_max_pixels_counterexample :
    (detect_blobs (List.range 512) true true 12 pixTallStrips 7 11674).1.blobs.map
        (fun b => b.pixel_count) = [70002] ∧ MAX_BLOB_PIXELS < 70002 := by
  constructor
  · simp only [detect_blobs, sceneBrightnessOf, Bool.true_eq_false, if_false,
      show roiYStart 11674 = 0 from rfl, show roiYEnd 11674 = 11674 from rfl,
      show (11674 - 0 : ℕ) = 11674 from rfl,
      parentInit_eq (List.range 512) (by rw [List.length_range]; rfl), MAX_LABELS,
      pass1_full, rowsRev_reverse, pass2_full,
      show (if 3 < 512 then 3 else (512 : ℕ)) = 3 from rfl,
      show (List.range' 1 2 : List ℕ) = [1, 2] from rfl]
    rfl
  · norm_num [MAX_BLOB_PIXELS]

/-- Total pixel count of the empty list. -/
theorem sumPc_nil : sumPc [] = 0 := rfl

/-- Total pixel count of a cons. -/
theorem sumPc_cons (b : blob_t) (l : List blob_t) :
    sumPc (b :: l) = b.pixel_count + sumPc l := by
  simp [sumPc]

/-- Each member is bounded by the total pixel count. -/
theorem member_le_sumPc : ∀ (l : List blob_t), ∀ b ∈ l, b.pixel_count ≤ sumPc l := by
  intro l
  induction l with
  | nil => intro b hb; cases hb
  | cons c rest ih =>
    intro b hb
    rw [sumPc_cons]
    rcases List.mem_cons.mp hb with rfl | h
    · omega
    · have := ih b h; omega

/-- A uniform member bound gives a bound on the total. -/
theorem sumPc_le (M : ℕ) : ∀ (l : List blob_t), (∀ b ∈ l, b.pixel_count ≤ M) →
    sumPc l ≤ M * l.length := by
  intro l
  induction l with
  | nil => intro _; simp [sumPc_nil]
  | cons c rest ih =>
    intro h
    rw [sumPc_cons, List.length_cons]
    have h1 := h c (List.mem_cons_self c rest)
    have h2 := ih (fun b hb => h b (List.mem_cons_of_mem c hb))
    have : M * (rest.length + 1) = M * rest.length + M := by ring
    omega

/-- Every blob appended by the collection loop passed the MIN/MAX pixel
count guards, so the bounds hold for all collected blobs. -/
theorem collectLoop_bounds (height : ℕ) (parent : List ℕ) (accs : List label_acc_t) :
    ∀ (l : List ℕ) (blobs : List blob_t),
      (∀ b ∈ blobs, MIN_BLOB_PIXELS ≤ b.pixel_count ∧ b.pixel_count ≤ MAX_BLOB_PIXELS) →
      ∀ b ∈ collectLoop height parent accs l blobs,
        MIN_BLOB_PIXELS ≤ b.pixel_count ∧ b.pixel_count ≤ MAX_BLOB_PIXELS := by
  intro l
  induction l with
  | nil => intro blobs h b hb; rw [collectLoop] at hb; exact h b hb
  | cons i is ih =>
    intro blobs h b hb
    simp only [collectLoop] at hb
    split_ifs at hb with h1 h2 h3 h4 h5
    · exact ih blobs h b hb
    · exact ih blobs h b hb
    · exact ih blobs h b hb
    · exact ih blobs h b hb
    · refine ih _ ?_ b hb
      intro c hc
      rcases List.mem_append.mp hc with h' | h'
      · exact h c h'
      · rcases List.mem_singleton.mp h' with rfl
        constructor
        · show MIN_BLOB_PIXELS ≤ (accs.getD i zeroAcc).pixel_count
          omega
        · show (accs.getD i zeroAcc).pixel_count ≤ MAX_BLOB_PIXELS
          omega
    · exact ih blobs h b hb

/-- The collection loop never grows the list beyond MAX_BLOBS. -/
theorem collectLoop_length (height : ℕ) (parent : List ℕ) (accs : List label_acc_t) :
    ∀ (l : List ℕ) (blobs : List blob_t), blobs.length ≤ MAX_BLOBS →
      (collectLoop height parent accs l blobs).length ≤ MAX_BLOBS := by
  intro l
  induction l with
  | nil => intro blobs h; rw [collectLoop]; exact h
  | cons i is ih =>
    intro blobs h
    simp only [collectLoop]
    split_ifs with h1 h2 h3 h4 h5
    · exact ih blobs h
    · exact ih blobs h
    · exact ih blobs h
    · exact ih blobs h
    · refine ih _ ?_
      rw [List.length_append, List.length_singleton]
      simp only [MAX_BLOBS] at h4 ⊢
      omega
    · exact ih blobs h

/-- Members of an insertion step come from the inserted blob or the
original list. -/
theorem insertDescending_mem (b : blob_t) :
    ∀ (l : List blob_t) (c : blob_t), c ∈ insertDescending b l → c = b ∨ c ∈ l := by
  intro l
  induction l with
  | nil => intro c hc; rcases List.mem_singleton.mp hc with rfl; exact Or.inl rfl
  | cons d rest ih =>
    intro c hc
    rw [insertDescending] at hc
    split_ifs at hc
    · rcases List.mem_cons.mp hc with rfl | h
      · exact Or.inl rfl
      · exact Or.inr h
    · rcases List.mem_cons.mp hc with rfl | h
      · exact Or.inr (List.mem_cons_self _ _)
      · rcases ih c h with h' | h'
        · exact Or.inl h'
        · exact Or.inr (List.mem_cons_of_mem _ h')

/-- An insertion step adds the inserted blob's pixels to the total. -/
theorem insertDescending_sumPc (b : blob_t) :
    ∀ (l : List blob_t), sumPc (insertDescending b l) = b.pixel_count + sumPc l := by
  intro l
  induction l with
  | nil => rw [insertDescending, sumPc_cons, sumPc_nil]
  | cons d rest ih =>
    rw [insertDescending]
    split_ifs
    · rw [sumPc_cons]
    · rw [sumPc_cons, ih, sumPc_cons]
      ring

/-- An insertion step grows the length by one. -/
theorem insertDescending_length (b : blob_t) :
    ∀ (l : List blob_t), (insertDescending b l).length = l.length + 1 := by
  intro l
  induction l with
  | nil => rfl
  | cons d rest ih =>
    rw [insertDescending]
    split_ifs
    · simp
    · simp only [List.length_cons, ih]

/-- Members of the insertion-sort fold come from the accumulator or the
input. -/
theorem sortFold_mem : ∀ (l acc : List blob_t) (c : blob_t),
    c ∈ l.foldl (fun a b => insertDescending b a) acc → c ∈ acc ∨ c ∈ l := by
  intro l
  induction l with
  | nil => intro acc c hc; exact Or.inl hc
  | cons d rest ih =>
    intro acc c hc
    rw [List.foldl_cons] at hc
    rcases ih (insertDescending d acc) c hc with h | h
    · rcases insertDescending_mem d acc c h with rfl | h'
      · exact Or.inr (List.mem_cons_self _ _)
      · exact Or.inl h'
    · exact Or.inr (List.mem_cons_of_mem _ h)

/-- The insertion-sort fold preserves the total pixel count. -/
theorem sortFold_sumPc : ∀ (l acc : List blob_t),
    sumPc (l.foldl (fun a b => insertDescending b a) acc) = sumPc acc + sumPc l := by
  intro l
  induction l with
  | nil => intro acc; simp [sumPc_nil]
  | cons d rest ih =>
    intro acc
    rw [List.foldl_cons, ih, insertDescending_sumPc, sumPc_cons]
    ring

/-- The insertion-sort fold preserves the length. -/
theorem sortFold_length : ∀ (l acc : List blob_t),
    (l.foldl (fun a b => insertDescending b a) acc).length = acc.length + l.length := by
  intro l
  induction l with
  | nil => intro acc; simp
  | cons d rest ih =>
    intro acc
    rw [List.foldl_cons, ih, insertDescending_length, List.length_cons]
    ring

/-- Members of the sorted list are members of the input. -/
theorem sortBlobsDescending_mem (l : List blob_t) (c : blob_t)
    (hc : c ∈ sortBlobsDescending l) : c ∈ l := by
  rcases sortFold_mem l [] c hc with h | h
  · cases h
  · exact h

/-- Sorting preserves the total pixel count. -/
theorem sortBlobsDescending_sumPc (l : List blob_t) :
    sumPc (sortBlobsDescending l) = sumPc l := by
  rw [sortBlobsDescending, sortFold_sumPc, sumPc_nil, Nat.zero_add]

/-- The inner merge scan preserves the MIN pixel bound and conserves the
total pixel count exactly, provided the total fits in uint32_t. -/
theorem mergeScan_bounds (md : ℕ) : ∀ (rest : List blob_t) (b : blob_t),
    MIN_BLOB_PIXELS ≤ b.pixel_count →
    (∀ c ∈ rest, MIN_BLOB_PIXELS ≤ c.pixel_count) →
    b.pixel_count + sumPc rest < 4294967296 →
    MIN_BLOB_PIXELS ≤ (mergeScan md b rest).1.pixel_count ∧
    (∀ c ∈ (mergeScan md b rest).2, MIN_BLOB_PIXELS ≤ c.pixel_count) ∧
    (mergeScan md b rest).1.pixel_count + sumPc (mergeScan md b rest).2 =
      b.pixel_count + sumPc rest := by
  intro rest
  induction rest with
  | nil =>
    intro b hb _ _
    refine ⟨hb, ?_, rfl⟩
    intro c hc
    cases hc
  | cons c rest ih =>
    intro b hb hall hsum
    rw [sumPc_cons] at hsum
    by_cases hd : blobManhattan b c ≤ md
    · rw [mergeScan, if_pos hd]
      have hm : (mergeBlobs b c).pixel_count = b.pixel_count + c.pixel_count := by
        simp only [mergeBlobs, u32]
        exact Nat.mod_eq_of_lt (by omega)
      have hrec := ih (mergeBlobs b c) (by omega)
        (fun d hd' => hall d (List.mem_cons_of_mem c hd')) (by omega)
      refine ⟨hrec.1, hrec.2.1, ?_⟩
      rw [hrec.2.2, hm, sumPc_cons]
      ring
    · simp only [mergeScan, if_neg hd]
      have hrec := ih b hb (fun d hd' => hall d (List.mem_cons_of_mem c hd')) (by omega)
      refine ⟨hrec.1, ?_, ?_⟩
      · intro d hd'
        rcases List.mem_cons.mp hd' with rfl | h'
        · exact hall d (List.mem_cons_self _ _)
        · exact hrec.2.1 d h'
      · have h3 := hrec.2.2
        simp only [sumPc_cons]
        omega

/-- Every blob surviving the merge pass keeps the MIN pixel bound and is
bounded by the total pixel count of the input. -/
theorem mergeLoop_bounds (md : ℕ) : ∀ (fuel : ℕ) (l : List blob_t),
    (∀ c ∈ l, MIN_BLOB_PIXELS ≤ c.pixel_count) → sumPc l < 4294967296 →
    ∀ b ∈ mergeLoop md fuel l,
      MIN_BLOB_PIXELS ≤ b.pixel_count ∧ b.pixel_count ≤ sumPc l := by
  intro fuel
  induction fuel with
  | zero =>
    intro l hall hs b hb
    rw [mergeLoop] at hb
    exact ⟨hall b hb, member_le_sumPc l b hb⟩
  | succ fuel ih =>
    intro l hall hs b hb
    cases l with
    | nil => rw [mergeLoop] at hb; cases hb
    | cons a rest =>
      rw [mergeLoop] at hb
      rw [sumPc_cons] at hs
      have hms := mergeScan_bounds md rest a (hall a (List.mem_cons_self _ _))
        (fun d hd' => hall d (List.mem_cons_of_mem a hd')) (by omega)
      rcases List.mem_cons.mp hb with rfl | h'
      · refine ⟨hms.1, ?_⟩
        rw [sumPc_cons]
        omega
      · have hrec := ih (mergeScan md a rest).2 hms.2.1 (by omega) b h'
        refine ⟨hrec.1, ?_⟩
        rw [sumPc_cons]
        omega

/-- Bounds for the collect / sort / merge pipeline applied to any pass-2
state: reported blobs hold at least MIN_BLOB_PIXELS pixels and at most
the worst-case total MAX_BLOBS * MAX_BLOB_PIXELS. -/
theorem detect_pipeline_bounds (height md fuel : ℕ) (P : List ℕ) (A : List label_acc_t)
    (L : List ℕ) :
    ∀ b ∈ mergeLoop md fuel (sortBlobsDescending (collectLoop height P A L [])),
      MIN_BLOB_PIXELS ≤ b.pixel_count ∧ b.pixel_count ≤ MAX_BLOBS * MAX_BLOB_PIXELS := by
  intro b hb
  have hcol := collectLoop_bounds height P A L [] (by intro c hc; cases hc)
  have hlen := collectLoop_length height P A L [] (by simp [MAX_BLOBS])
  have hsmem : ∀ c ∈ sortBlobsDescending (collectLoop height P A L []),
      MIN_BLOB_PIXELS ≤ c.pixel_count ∧ c.pixel_count ≤ MAX_BLOB_PIXELS :=
    fun c hc => hcol c (sortBlobsDescending_mem _ c hc)
  have hsum : sumPc (sortBlobsDescending (collectLoop height P A L [])) ≤
      MAX_BLOB_PIXELS * MAX_BLOBS := by
    rw [sortBlobsDescending_sumPc]
    calc sumPc (collectLoop height P A L []) ≤
        MAX_BLOB_PIXELS * (collectLoop height P A L []).length :=
          sumPc_le MAX_BLOB_PIXELS _ (fun c hc => (hcol c hc).2)
      _ ≤ MAX_BLOB_PIXELS * MAX_BLOBS := Nat.mul_le_mul_left _ hlen
  have hml := mergeLoop_bounds md fuel _ (fun c hc => (hsmem c hc).1)
    (lt_of_le_of_lt hsum (by norm_num [MAX_BLOB_PIXELS, MAX_BLOBS])) b hb
  exact ⟨hml.1, le_trans hml.2 (le_trans hsum
    (by norm_num [MAX_BLOB_PIXELS, MAX_BLOBS]))⟩

/-- C1 (amended): every blob reported by detect_blobs (allocations
succeeding) has a pixel count of at least MIN_BLOB_PIXELS — each
collected blob passes the MIN/MAX guards and merging only sums pixel
counts without uint32_t wrap-around — and of at most
MAX_BLOBS * MAX_BLOB_PIXELS.  The claimed MAX_BLOB_PIXELS upper bound
itself is refuted by detect_blobs_max_pixels_counterexample: the merge
pass can exceed it. -/
theorem detect_blobs_min_pixels (parent0 : List ℕ) (mergeDist : ℕ) (pixels : ℕ → ℕ)
    (width height : ℕ) :
    ∀ b ∈ (detect_blobs parent0 true true mergeDist pixels width height).1.blobs,
      MIN_BLOB_PIXELS ≤ b.pixel_count ∧ b.pixel_count ≤ MAX_BLOBS * MAX_BLOB_PIXELS := by
  intro b hb
  simp only [detect_blobs, Bool.true_eq_false, if_false] at hb
  exact detect_pipeline_bounds height mergeDist _ _ _ _ b hb

set_option maxRecDepth 40000 in
/-- Witness: on an all-bright 5 x 8 frame the single reported blob has 40
pixels, within the proven bounds. -/
theorem detect_blobs_min_pixels_witness :
    MIN_BLOB_PIXELS ≤ (blob_t.mk 2 3 40 10200 blob_class_t.UNKNOWN 0 0).pixel_count ∧
    (blob_t.mk 2 3 40 10200 blob_class_t.UNKNOWN 0 0).pixel_count ≤
      MAX_BLOBS * MAX_BLOB_PIXELS :=
  detect_blobs_min_pixels (List.range 512) 12 pixAllBright 5 8
    (blob_t.mk 2 3 40 10200 blob_class_t.UNKNOWN 0 0)
    (by
      rw [show (detect_blobs (List.range 512) true true 12 pixAllBright 5 8).1.blobs =
        [blob_t.mk 2 3 40 10200 blob_class_t.UNKNOWN 0 0] from rfl]
      exact List.mem_singleton_self _)
